import Mathlib

set_option maxRecDepth 8000

namespace PAP

/-- Execution status of a pipeline, job or step (pap-api/src/lib.rs, ExecutionStatus). -/
inductive ExecutionStatus where
  | Pending
  | Running
  | Completed
  | Failed
  | Cancelled
deriving DecidableEq, Repr

/-- strum Display: each variant renders as its own name; this is the string stored in
the TEXT status columns of the database. -/
def ExecutionStatus.toStr : ExecutionStatus → String
  | .Pending => "Pending"
  | .Running => "Running"
  | .Completed => "Completed"
  | .Failed => "Failed"
  | .Cancelled => "Cancelled"

/-- strum EnumString FromStr: parse a stored status string, none on an unknown string. -/
def statusFromStr (s : String) : Option ExecutionStatus :=
  if s = "Pending" then some .Pending
  else if s = "Running" then some .Running
  else if s = "Completed" then some .Completed
  else if s = "Failed" then some .Failed
  else if s = "Cancelled" then some .Cancelled
  else none

/-- Domain error kinds (pap-api/src/lib.rs PapError). -/
inductive PapError where
  | NotFound (msg : String)
  | Database (msg : String)
  | Configuration (msg : String)
  | Execution (msg : String)
  | Internal (msg : String)
deriving DecidableEq, Repr

/-- The thiserror Display strings of PapError (pap-api/src/lib.rs 48-60). -/
def PapError.toMessage : PapError → String
  | .NotFound m => "Resource not found: " ++ m
  | .Database m => "Database error: " ++ m
  | .Configuration m => "Invalid configuration: " ++ m
  | .Execution m => "Execution error: " ++ m
  | .Internal m => "Internal error: " ++ m

/-- An anyhow::Error as the queries layer produces it: either a wrapped PapError
(anyhow's blanket From over std errors) or a plain message (bail!, sqlx or strum
errors). Its Display is the wrapped error's Display. -/
inductive AnyErr where
  | pap (e : PapError)
  | msg (s : String)
deriving DecidableEq, Repr

def AnyErr.toMessage : AnyErr → String
  | .pap e => e.toMessage
  | .msg s => s

/-- impl From of anyhow::Error for PapError (pap-api/src/lib.rs 79-83): the original
error kind is erased and everything becomes Internal of the display string. -/
def papFromAnyhow (e : AnyErr) : PapError := .Internal e.toMessage

/-- True exactly on the NotFound kind. -/
def PapError.isNotFoundKind : PapError → Bool
  | .NotFound _ => true
  | _ => false

/-- Modelled from the spec: pap-api re-exports its config module (pap_api::Config, Job,
Step and friends) but pap-api/src/config.rs itself is not among the source files under
src/. Spec section 3: a Step has a name, a call (registry key), an args map whose
values the step runtime surfaces as strings (step/mod.rs get_arg returns the stored
string directly), and an optional io map from string to string. Maps are modelled as
association lists; file and blob bytes are modelled as strings. -/
structure StepCfg where
  name : String
  call : String
  args : List (String × String)
  io : List (String × String)
deriving DecidableEq, Repr

/-- Modelled from the spec (section 3, same missing pap-api config module): a Job has a
name and an ordered sequence of Steps. -/
structure JobCfg where
  name : String
  steps : List StepCfg
deriving DecidableEq, Repr

/-- Loader configuration of a project (spec section 3 and pap-config/src/lib.rs). -/
structure LoaderCfg where
  base_address : Nat
  stack_address : Nat
deriving DecidableEq, Repr

/-- An MMIO entry of a project (spec section 3 and pap-config/src/lib.rs). -/
structure MMIOEntry where
  address : Nat
  size : Nat
  handler : String
deriving DecidableEq, Repr

/-- A project declaration (spec section 3 and pap-config/src/lib.rs). -/
structure ProjectCfg where
  name : String
  binary : String
  arch : String
  loader : Option LoaderCfg
  mmio : List MMIOEntry
deriving DecidableEq, Repr

/-- A pipeline configuration: ordered projects and ordered jobs. -/
structure Config where
  projects : List ProjectCfg
  jobs : List JobCfg
deriving DecidableEq, Repr

/-- Submission artifact (pap-api/src/context.rs Context): the config plus the file
bundle mapping each declared binary path to its bytes. -/
structure Context where
  config : Config
  files : List (String × String)
deriving DecidableEq, Repr

/-- Row of the pipelines table (queries.rs init_tables 8-20): config TEXT, context BLOB,
execution_status TEXT DEFAULT Pending; id is INTEGER PRIMARY KEY AUTOINCREMENT. The
serialized config and context blobs are modelled structurally (serde round trip). -/
structure PipelineRow where
  id : Nat
  config : Config
  context : Context
  execution_status : String
deriving DecidableEq, Repr

/-- Row of the jobs table (queries.rs init_tables 22-35). The name column holds
serde_json::to_string of the whole Job config (queries.rs setup_pipeline binds the
serialized job), modelled structurally. -/
structure JobRow where
  id : Nat
  pipeline_id : Nat
  name : JobCfg
  status : String
  current_step : Nat
deriving DecidableEq, Repr

/-- Row of the steps table (queries.rs init_tables 37-55): log_data BLOB is NULL until
the first set_step_log. -/
structure StepRow where
  id : Nat
  job_id : Nat
  pipeline_id : Nat
  name : String
  call : String
  args : List (String × String)
  io : List (String × String)
  status : String
  log_data : Option String
deriving DecidableEq, Repr

/-- Row of the objects table (queries.rs init_tables 57-69): PRIMARY KEY (namespace,
key). The namespace column is named ns here because namespace is a Lean keyword. -/
structure ObjectRow where
  ns : String
  key : String
  value : String
deriving DecidableEq, Repr

/-- Row of the global_errors table (queries.rs init_tables 71-83). -/
structure ErrorRow where
  id : Nat
  pipeline_id : Nat
  error_message : String
deriving DecidableEq, Repr

/-- The sqlite database state: one list per table, rows in insertion order (the order a
SELECT without ORDER BY scans a rowid table), plus the AUTOINCREMENT counters. -/
structure DB where
  pipelines : List PipelineRow
  jobs : List JobRow
  steps : List StepRow
  objects : List ObjectRow
  global_errors : List ErrorRow
  next_pipeline_id : Nat
  next_job_id : Nat
  next_step_id : Nat
  next_error_id : Nat
deriving DecidableEq, Repr

/-- The freshly initialised store: empty tables, AUTOINCREMENT counters at 1. -/
def emptyDB : DB :=
  { pipelines := [], jobs := [], steps := [], objects := [], global_errors := []
    next_pipeline_id := 1, next_job_id := 1, next_step_id := 1, next_error_id := 1 }

/-- UPDATE pipelines SET execution_status = ? WHERE id = ? (queries.rs 88-103), a blind
single-row update. -/
def set_pipeline_status (db : DB) (pipeline_id : Nat) (status : ExecutionStatus) : DB :=
  { db with pipelines := db.pipelines.map fun r =>
      if r.id = pipeline_id then { r with execution_status := status.toStr } else r }

/-- UPDATE jobs SET status = ? WHERE id = ? (queries.rs 105-116). -/
def set_job_status (db : DB) (job_id : Nat) (status : ExecutionStatus) : DB :=
  { db with jobs := db.jobs.map fun r =>
      if r.id = job_id then { r with status := status.toStr } else r }

/-- UPDATE steps SET status = ? WHERE id = ? (queries.rs 118-129). -/
def set_step_status (db : DB) (step_id : Nat) (status : ExecutionStatus) : DB :=
  { db with steps := db.steps.map fun r =>
      if r.id = step_id then { r with status := status.toStr } else r }

/-- UPDATE steps SET log_data = ? WHERE id = ? (queries.rs 131-142), a blind overwrite
of the log blob. -/
def set_step_log (db : DB) (step_id : Nat) (log : String) : DB :=
  { db with steps := db.steps.map fun r =>
      if r.id = step_id then { r with log_data := some log } else r }

/-- store_error (queries.rs 144-165): one transaction setting the pipeline row to
Failed and appending a global_errors row with the message. -/
def store_error (db : DB) (pipeline_id : Nat) (error : String) : DB :=
  { db with
    pipelines := db.pipelines.map fun r =>
      if r.id = pipeline_id then { r with execution_status := ExecutionStatus.Failed.toStr } else r
    global_errors := db.global_errors ++
      [{ id := db.next_error_id, pipeline_id := pipeline_id, error_message := error }]
    next_error_id := db.next_error_id + 1 }

/-- The in-memory PipelineStatus (pap-api/src/lib.rs 22-29). -/
structure PipelineStatusM where
  id : Nat
  config : Config
  status : ExecutionStatus
  jobs : List Nat
  error : Option String
deriving DecidableEq, Repr

/-- The in-memory StepStatus (pap-api/src/lib.rs 40-46). -/
structure StepStatusM where
  id : Nat
  config : StepCfg
  status : ExecutionStatus
  output : Option String
deriving DecidableEq, Repr

/-- The in-memory JobStatus (pap-api/src/lib.rs 31-38). -/
structure JobStatusM where
  id : Nat
  config : JobCfg
  steps : List StepStatusM
  status : ExecutionStatus
  current_step : Option Nat
deriving DecidableEq, Repr

/-- get_pipeline_status (queries.rs 167-198): fetch the pipeline row (NotFound when
missing), list the job ids of the pipeline with a plain SELECT carrying no ORDER BY
(scan order = insertion order), parse the stored status string, and always return
error = none. -/
def get_pipeline_status (db : DB) (id : Nat) : Except AnyErr PipelineStatusM :=
  match db.pipelines.find? (fun r => r.id == id) with
  | none => .error (.pap (.NotFound ("Pipeline " ++ toString id)))
  | some p =>
    let jobIds := (db.jobs.filter (fun r => r.pipeline_id == id)).map (·.id)
    match statusFromStr p.execution_status with
    | none => .error (.msg "Matching variant not found")
    | some st => .ok { id := id, config := p.config, status := st, jobs := jobIds, error := none }

/-- Insertion of a step row into an id-ascending list, for ORDER BY id ASC. -/
def insertByIdAsc (r : StepRow) : List StepRow → List StepRow
  | [] => [r]
  | x :: xs => if r.id ≤ x.id then r :: x :: xs else x :: insertByIdAsc r xs

/-- ORDER BY id ASC over a list of step rows. -/
def sortByIdAsc (l : List StepRow) : List StepRow := l.foldr insertByIdAsc []

/-- The step config held by a step row (the args and io columns parse back by the
serde round trip). -/
def stepCfgOfRow (r : StepRow) : StepCfg :=
  { name := r.name, call := r.call, args := r.args, io := r.io }

/-- The collect over step rows in get_job_status (queries.rs 225-240): map each row to a
StepStatus, short-circuiting on the first row whose status string fails to parse. -/
def parseStepRows : List StepRow → Except AnyErr (List StepStatusM)
  | [] => .ok []
  | r :: rs =>
    match statusFromStr r.status with
    | none => .error (.msg "Matching variant not found")
    | some st =>
      match parseStepRows rs with
      | .error e => .error e
      | .ok ss => .ok ({ id := r.id, config := stepCfgOfRow r, status := st, output := r.log_data } :: ss)

/-- get_job_status (queries.rs 200-249): fetch the job row (NotFound when missing),
fetch its steps ORDER BY id ASC, collect them into StepStatus values, then build the
JobStatus, parsing the job status string last. -/
def get_job_status (db : DB) (id : Nat) : Except AnyErr JobStatusM :=
  match db.jobs.find? (fun r => r.id == id) with
  | none => .error (.pap (.NotFound ("Job " ++ toString id)))
  | some j =>
    match parseStepRows (sortByIdAsc (db.steps.filter (fun r => r.job_id == id))) with
    | .error e => .error e
    | .ok ss =>
      match statusFromStr j.status with
      | none => .error (.msg "Matching variant not found")
      | some st =>
        .ok { id := id, config := j.name, steps := ss, status := st, current_step := some j.current_step }

/-- get_object (queries.rs 278-290): SELECT value FROM objects WHERE namespace = ? AND
key = ?, NotFound when absent; this query returns PapError directly, so the kind
survives to the RPC surface. -/
def get_object (db : DB) (ns : String) (key : String) : Except PapError String :=
  match db.objects.find? (fun r => r.ns == ns && r.key == key) with
  | none => .error (.NotFound ("Object in namespace " ++ ns ++ " with key " ++ key))
  | some r => .ok r.value

/-- put_object (queries.rs 292-300): INSERT OR REPLACE keyed on (namespace, key); the
conflicting row, if any, is deleted and the new row inserted at the end. -/
def put_object (db : DB) (ns : String) (key : String) (value : String) : DB :=
  { db with objects :=
      (db.objects.filter (fun r => !(r.ns == ns && r.key == key))) ++
        [{ ns := ns, key := key, value := value }] }

/-- Insert one step row (the inner loop of queries.rs setup_pipeline 325-337):
status takes the column default Pending, log_data starts NULL. -/
def insertStep (db : DB) (job_id pipeline_id : Nat) (s : StepCfg) : DB :=
  { db with
    steps := db.steps ++
      [{ id := db.next_step_id, job_id := job_id, pipeline_id := pipeline_id,
         name := s.name, call := s.call, args := s.args, io := s.io,
         status := "Pending", log_data := none }]
    next_step_id := db.next_step_id + 1 }

/-- Insert the step rows of one job in declared order. -/
def insertSteps (db : DB) (job_id pipeline_id : Nat) (steps : List StepCfg) : DB :=
  steps.foldl (fun d s => insertStep d job_id pipeline_id s) db

/-- Insert one job row and then its step rows (queries.rs setup_pipeline 315-338). -/
def insertJob (db : DB) (pipeline_id : Nat) (j : JobCfg) : DB × Nat :=
  let jid := db.next_job_id
  let db1 := { db with
    jobs := db.jobs ++
      [{ id := jid, pipeline_id := pipeline_id, name := j, status := "Pending", current_step := 0 }]
    next_job_id := jid + 1 }
  (insertSteps db1 jid pipeline_id j.steps, jid)

/-- Insert all job rows in declared order, collecting the assigned ids. -/
def insertJobs (db : DB) (pipeline_id : Nat) : List JobCfg → DB × List Nat
  | [] => (db, [])
  | j :: js =>
    let p1 := insertJob db pipeline_id j
    let p2 := insertJobs p1.1 pipeline_id js
    (p2.1, p1.2 :: p2.2)

/-- setup_pipeline (queries.rs 302-349): one transaction inserting the pipeline row,
then for each job its row, then each of its step rows; every status column takes its
Pending default, while the returned in-memory PipelineStatus intentionally reports
Running (accepted for execution). -/
def setup_pipeline (db : DB) (ctx : Context) : PipelineStatusM × DB :=
  let pid := db.next_pipeline_id
  let db1 := { db with
    pipelines := db.pipelines ++
      [{ id := pid, config := ctx.config, context := ctx, execution_status := "Pending" }]
    next_pipeline_id := pid + 1 }
  let p := insertJobs db1 pid ctx.config.jobs
  ({ id := pid, config := ctx.config, status := .Running, jobs := p.2, error := none }, p.1)

/-- cancel_pipeline (queries.rs 351-376): one transaction blindly setting the pipeline
row, every job row with this pipeline_id and every step row with this pipeline_id to
Cancelled, whatever status they held. -/
def cancel_pipeline (db : DB) (id : Nat) : DB :=
  { db with
    pipelines := db.pipelines.map fun r =>
      if r.id = id then { r with execution_status := ExecutionStatus.Cancelled.toStr } else r
    jobs := db.jobs.map fun r =>
      if r.pipeline_id = id then { r with status := ExecutionStatus.Cancelled.toStr } else r
    steps := db.steps.map fun r =>
      if r.pipeline_id = id then { r with status := ExecutionStatus.Cancelled.toStr } else r }

/-- SELECT id FROM jobs WHERE pipeline_id = ?. -/
def jobIdsOfPipeline (db : DB) (pipeline_id : Nat) : List Nat :=
  (db.jobs.filter (fun r => r.pipeline_id == pipeline_id)).map (·.id)

/-- delete_pipeline (queries.rs 378-402): one transaction deleting the steps whose
job_id is among this pipeline's job ids, then the jobs of the pipeline, then the
pipeline row itself. -/
def delete_pipeline (db : DB) (id : Nat) : DB :=
  let jids := jobIdsOfPipeline db id
  { db with
    steps := db.steps.filter (fun r => !(jids.contains r.job_id))
    jobs := db.jobs.filter (fun r => !(r.pipeline_id == id))
    pipelines := db.pipelines.filter (fun r => !(r.id == id)) }

/-- cancel_job (queries.rs 404-424): one transaction whose two UPDATEs both filter on
pipeline_id = the given job id, although the comments in the source say they intend
to cancel the job row itself and the steps belonging to it. -/
def cancel_job (db : DB) (id : Nat) : DB :=
  { db with
    steps := db.steps.map fun r =>
      if r.pipeline_id = id then { r with status := ExecutionStatus.Cancelled.toStr } else r
    jobs := db.jobs.map fun r =>
      if r.pipeline_id = id then { r with status := ExecutionStatus.Cancelled.toStr } else r }

/-- The cancel_job RPC handler (server.rs 226-232): a single raw UPDATE of the job row
by id; it does not touch the job's steps. -/
def rpc_cancel_job (db : DB) (id : Nat) : DB :=
  { db with jobs := db.jobs.map fun r =>
      if r.id = id then { r with status := "Cancelled" } else r }

/-- is_step_cancelled (queries.rs 426-458): three fetch_one lookups in sequence, each of
which can fail, either because fetch_one finds no row or because the stored status
string does not parse; otherwise true when the step, its job or its pipeline is
Cancelled. -/
def is_step_cancelled (db : DB) (step_id : Nat) : Except AnyErr Bool :=
  match db.steps.find? (fun r => r.id == step_id) with
  | none => .error (.msg "no rows returned by a query that expected to return at least one row")
  | some s =>
    match statusFromStr s.status with
    | none => .error (.msg "Matching variant not found")
    | some st =>
      if st = .Cancelled then .ok true
      else
        match db.jobs.find? (fun r => r.id == s.job_id) with
        | none => .error (.msg "no rows returned by a query that expected to return at least one row")
        | some j =>
          match statusFromStr j.status with
          | none => .error (.msg "Matching variant not found")
          | some jst =>
            if jst = .Cancelled then .ok true
            else
              match db.pipelines.find? (fun r => r.id == s.pipeline_id) with
              | none => .error (.msg "no rows returned by a query that expected to return at least one row")
              | some p =>
                match statusFromStr p.execution_status with
                | none => .error (.msg "Matching variant not found")
                | some pst => .ok (decide (pst = ExecutionStatus.Cancelled))

/-- StepContext::is_cancelled (step/mod.rs 56-60): block_on the store query and
unwrap_or(false), so every failure of the query is reported as not cancelled. -/
def StepContext.is_cancelled (db : DB) (step_id : Nat) : Bool :=
  match is_step_cancelled db step_id with
  | .ok b => b
  | .error _ => false

/-- The get_step_log RPC handler (server.rs 234-240): fetch_optional of the log_data
column decoded as Vec of u8; a missing row gives NotFound, while an existing row whose
log_data is still NULL fails to decode and surfaces as a Database error through
From of sqlx::Error. -/
def get_step_log (db : DB) (id : Nat) : Except PapError String :=
  match db.steps.find? (fun r => r.id == id) with
  | none => .error (.NotFound ("Step log for " ++ toString id))
  | some r =>
    match r.log_data with
    | none => .error (.Database "error occurred while decoding column 0: unexpected null; try decoding as an Option")
    | some l => .ok l

/-- Model of a step executor (step/mod.rs StepExecutor): running it on the step's
config yields the execution result (an error message on failure) and the log buffer
the step accumulated through ctx.log. -/
structure ExecutorModel where
  run : StepCfg → Except String Unit × String

/-- step/mod.rs StepExecutorRegistry: a map from executor name to executor, immutable
after startup, modelled as an association list. -/
def Registry := List (String × ExecutorModel)

/-- StepExecutorRegistry::get (step/mod.rs 105-107). -/
def Registry.get (reg : Registry) (name : String) : Option ExecutorModel :=
  (reg.find? (fun p => p.1 == name)).map (·.2)

/-- step/hello.rs HelloStepExecutor: greets the name argument, fails when it is
missing; ctx.log appends the message and then a newline byte. -/
def helloExec : ExecutorModel :=
  { run := fun s =>
      match (s.args.find? (fun p => p.1 == "name")).map (·.2) with
      | none => (.error "missing `name` argument", "")
      | some n => (.ok (), "Hello, " ++ n ++ "!" ++ "\n") }

/-- The step-validation inner loop of server.rs validate (31-37): bail on the first
step whose call is not in the registry. -/
def validateSteps (reg : Registry) : List StepCfg → Except String Unit
  | [] => .ok ()
  | s :: rest =>
    match Registry.get reg s.call with
    | none => .error ("step executor not found: " ++ s.call)
    | some _ => validateSteps reg rest

/-- The job loop of server.rs validate. -/
def validateJobs (reg : Registry) : List JobCfg → Except String Unit
  | [] => .ok ()
  | j :: rest =>
    match validateSteps reg j.steps with
    | .error e => .error e
    | .ok _ => validateJobs reg rest

/-- PipelineServer::validate (server.rs 30-40). -/
def validate (reg : Registry) (ctx : Context) : Except String Unit :=
  validateJobs reg ctx.config.jobs

/-- PipelineServer::execute_step (server.rs 84-98): look up the executor by the step's
call (an error when missing, in which case the log write is skipped), run it, then
store the accumulated log regardless of the execution result. -/
def execute_step (reg : Registry) (step : StepStatusM) (db : DB) : DB × Except String Unit :=
  match Registry.get reg step.config.call with
  | none => (db, .error ("step executor not found: " ++ step.config.call))
  | some ex =>
    let res := ex.run step.config
    (set_step_log db step.id res.2, res.1)

/-- Outcome of the per-job step loop. -/
inductive StepsOutcome where
  | finished
  | jobCancelled
  | stepFailed (msg : String)
  | dbError (e : AnyErr)
deriving DecidableEq, Repr

/-- Outcome of one job iteration. -/
inductive JobOutcome where
  | jobDone
  | stepFailed (msg : String)
  | dbError (e : AnyErr)
deriving DecidableEq, Repr

/-- Outcome of the job loop. -/
inductive JobsOutcome where
  | finished
  | earlyCancel
  | stepFailed (msg : String)
  | dbError (e : AnyErr)
deriving DecidableEq, Repr

/-- The per-step loop of PipelineServer::execute (server.rs 115-142): before each step
re-read the job status and break on Cancelled; otherwise mark the step Running, run the
executor, mark the step Completed on success, and on failure mark the step, its job and
its pipeline Failed and return the error. -/
def runSteps (reg : Registry) (pid jid : Nat) : List StepStatusM → DB → DB × StepsOutcome
  | [], db => (db, .finished)
  | step :: rest, db =>
    match get_job_status db jid with
    | .error e => (db, .dbError e)
    | .ok cur =>
      if cur.status = .Cancelled then (db, .jobCancelled)
      else
        let db1 := set_step_status db step.id .Running
        match execute_step reg step db1 with
        | (db2, .ok _) => runSteps reg pid jid rest (set_step_status db2 step.id .Completed)
        | (db2, .error m) =>
          let db3 := set_step_status db2 step.id .Failed
          let db4 := set_job_status db3 jid .Failed
          let db5 := set_pipeline_status db4 pid .Failed
          (db5, .stepFailed m)

/-- One job iteration of PipelineServer::execute (server.rs 112-149), after the
pipeline cancellation check: snapshot the job (for its step list), mark it Running, run
its steps, then mark the job Completed unless it reads back as Cancelled. -/
def runJob (reg : Registry) (pid jid : Nat) (db : DB) : DB × JobOutcome :=
  match get_job_status db jid with
  | .error e => (db, .dbError e)
  | .ok snapshot =>
    let db1 := set_job_status db jid .Running
    match runSteps reg pid jid snapshot.steps db1 with
    | (db2, .stepFailed m) => (db2, .stepFailed m)
    | (db2, .dbError e) => (db2, .dbError e)
    | (db2, _) =>
      match get_job_status db2 jid with
      | .error e => (db2, .dbError e)
      | .ok cur =>
        if cur.status ≠ .Cancelled then (set_job_status db2 jid .Completed, .jobDone)
        else (db2, .jobDone)

/-- The job loop of PipelineServer::execute (server.rs 105-150): before each job re-read
the pipeline status and return early when it is Cancelled. -/
def runJobs (reg : Registry) (pid : Nat) : List Nat → DB → DB × JobsOutcome
  | [], db => (db, .finished)
  | jid :: rest, db =>
    match get_pipeline_status db pid with
    | .error e => (db, .dbError e)
    | .ok ps =>
      if ps.status = .Cancelled then (db, .earlyCancel)
      else
        match runJob reg pid jid db with
        | (db1, .jobDone) => runJobs reg pid rest db1
        | (db1, .stepFailed m) => (db1, .stepFailed m)
        | (db1, .dbError e) => (db1, .dbError e)

/-- The engine continuation from a job boundary: the remaining job loop, then the final
guarded Completed write (server.rs 152-159), with execute_blocking's store_error on an
error escaping execute (server.rs 164-172). -/
def engineTail (reg : Registry) (pid : Nat) (rest : List Nat) (db : DB) : DB :=
  match runJobs reg pid rest db with
  | (db1, .earlyCancel) => db1
  | (db1, .stepFailed m) => store_error db1 pid m
  | (db1, .dbError e) => store_error db1 pid e.toMessage
  | (db1, .finished) =>
    match get_pipeline_status db1 pid with
    | .error e => store_error db1 pid e.toMessage
    | .ok ps =>
      if ps.status ≠ .Cancelled then set_pipeline_status db1 pid .Completed
      else db1

/-- PipelineServer::execute wrapped by execute_blocking (server.rs 100-172): blindly
write Running, then run the job loop from the first job boundary; an error escaping
execute is recorded through store_error. -/
def execute_blocking (reg : Registry) (st : PipelineStatusM) (db : DB) : DB :=
  engineTail reg st.id st.jobs (set_pipeline_status db st.id .Running)

/-- The submit_pipeline RPC handler (server.rs 185-194): validate (whose anyhow error
converts to PapError::Internal through From), insert the pipeline tree, spawn the
engine in the background and return the id; the background run happens after the
response, so only the inserted rows are part of the returned state. -/
def submit_pipeline (reg : Registry) (ctx : Context) (db : DB) : Except PapError Nat × DB :=
  match validate reg ctx with
  | .error e => (.error (papFromAnyhow (.msg e)), db)
  | .ok _ =>
    let p := setup_pipeline db ctx
    (.ok p.1.id, p.2)

/-- The get_pipelines RPC handler (server.rs 200-204): SELECT id FROM pipelines. -/
def get_pipelines (db : DB) : List Nat := db.pipelines.map (·.id)

/-- The get_pipeline RPC handler (server.rs 196-198): the anyhow error of the query
converts to PapError through From, which erases a NotFound into Internal. -/
def rpc_get_pipeline (db : DB) (id : Nat) : Except PapError PipelineStatusM :=
  match get_pipeline_status db id with
  | .error e => .error (papFromAnyhow e)
  | .ok ps => .ok ps

/-- The get_job RPC handler (server.rs 216-218), with the same From conversion. -/
def rpc_get_job (db : DB) (id : Nat) : Except PapError JobStatusM :=
  match get_job_status db id with
  | .error e => .error (papFromAnyhow e)
  | .ok js => .ok js

/-- The stored status string of a pipeline row, as a direct observation of the table. -/
def pipelineStatusOf (db : DB) (id : Nat) : Option String :=
  (db.pipelines.find? (fun r => r.id == id)).map (·.execution_status)

/-- The stored status string of a job row. -/
def jobStatusOf (db : DB) (id : Nat) : Option String :=
  (db.jobs.find? (fun r => r.id == id)).map (·.status)

/-- The stored status string of a step row. -/
def stepStatusOf (db : DB) (id : Nat) : Option String :=
  (db.steps.find? (fun r => r.id == id)).map (·.status)

/-- Well-formedness of the store: every row id is below its table's AUTOINCREMENT
counter, and foreign ids point below the corresponding counters. This holds for the
freshly initialised store and is preserved by every operation. -/
structure WF (db : DB) : Prop where
  pipeline_ids : ∀ r ∈ db.pipelines, r.id < db.next_pipeline_id
  job_ids : ∀ r ∈ db.jobs, r.id < db.next_job_id
  step_ids : ∀ r ∈ db.steps, r.id < db.next_step_id
  step_job_ids : ∀ r ∈ db.steps, r.job_id < db.next_job_id
  job_pipeline_ids : ∀ r ∈ db.jobs, r.pipeline_id < db.next_pipeline_id
  step_pipeline_ids : ∀ r ∈ db.steps, r.pipeline_id < db.next_pipeline_id

theorem wf_emptyDB : WF emptyDB := by
  constructor <;> simp [emptyDB]

instance {ε α : Type} [DecidableEq ε] [DecidableEq α] : DecidableEq (Except ε α) := fun x y =>
  match x, y with
  | .ok a, .ok b =>
    if h : a = b then .isTrue (h ▸ rfl) else .isFalse fun hc => h (Except.ok.inj hc)
  | .error a, .error b =>
    if h : a = b then .isTrue (h ▸ rfl) else .isFalse fun hc => h (Except.error.inj hc)
  | .ok _, .error _ => .isFalse fun hc => Except.noConfusion hc
  | .error _, .ok _ => .isFalse fun hc => Except.noConfusion hc

/-! General list lemmas used throughout. -/

theorem find_app_of_none {α} {p : α → Bool} {l1 l2 : List α} (h : l1.find? p = none) :
    (l1 ++ l2).find? p = l2.find? p := by
  induction l1 with
  | nil => rfl
  | cons a t ih =>
    simp only [List.cons_append, List.find?_cons] at h ⊢
    cases hpa : p a with
    | false => simp only [hpa] at h ⊢; exact ih h
    | true => simp [hpa] at h

theorem find_none_of_all {α} {p : α → Bool} {l : List α} (h : ∀ x ∈ l, p x = false) :
    l.find? p = none := by
  induction l with
  | nil => rfl
  | cons a t ih =>
    simp only [List.find?_cons, h a (by simp)]
    exact ih fun x hx => h x (by simp [hx])

theorem find_filter_none {α} {p q : α → Bool} {l : List α}
    (h : ∀ x ∈ l, p x = true → q x = false) : (l.filter q).find? p = none := by
  apply find_none_of_all
  intro x hx
  rcases List.mem_filter.mp hx with ⟨hmem, hq⟩
  cases hp : p x with
  | false => rfl
  | true => rw [h x hmem hp] at hq; exact absurd hq (by simp)

theorem map_fix {α} {f : α → α} {l : List α} (h : ∀ x ∈ l, f x = x) : l.map f = l := by
  induction l with
  | nil => rfl
  | cons a t ih => simp [h a (by simp), ih fun x hx => h x (by simp [hx])]

theorem find_map_comm {α} {f : α → α} {p : α → Bool} (h : ∀ a, p (f a) = p a)
    (l : List α) : (l.map f).find? p = (l.find? p).map f := by
  induction l with
  | nil => rfl
  | cons a t ih =>
    simp only [List.map_cons, List.find?_cons, h a]
    cases p a <;> simp [ih]

theorem filter_map_comm {α} {f : α → α} {q : α → Bool} (h : ∀ a, q (f a) = q a)
    (l : List α) : (l.map f).filter q = (l.filter q).map f := by
  induction l with
  | nil => rfl
  | cons a t ih =>
    simp only [List.map_cons, List.filter_cons, h a]
    cases q a <;> simp [ih]

/-! Concrete fixtures reused by witnesses and counterexamples. -/

/-- A registry holding the built-in hello executor. -/
def regW : Registry := [("hello", helloExec)]

/-- Spec scenario 1: one job with one hello step greeting "world". -/
def ctxW : Context :=
  { config := { projects := [], jobs := [
      { name := "job1", steps := [
        { name := "greet", call := "hello", args := [("name", "world")], io := [] }] }] }
    files := [] }

/-- The submitted pipeline of ctxW on a fresh store: pipeline id 1, job id 1, step id 1. -/
def pipeW : PipelineStatusM × DB := setup_pipeline emptyDB ctxW

/-- Two jobs of one step each, in pipeline id 1 (job ids 1 and 2, step ids 1 and 2). -/
def ctx2 : Context :=
  { config := { projects := [], jobs := [
      { name := "job1", steps := [
        { name := "s1", call := "hello", args := [("name", "a")], io := [] }] },
      { name := "job2", steps := [
        { name := "s2", call := "hello", args := [("name", "b")], io := [] }] }] }
    files := [] }

/-- The submitted pipeline of ctx2 on a fresh store. -/
def pipe2 : PipelineStatusM × DB := setup_pipeline emptyDB ctx2

/-- Spec scenario 2: a single step whose call is not registered. -/
def ctxBad : Context :=
  { config := { projects := [], jobs := [
      { name := "job1", steps := [
        { name := "s1", call := "nonesuch", args := [], io := [] }] }] }
    files := [] }

/-- The store after the engine completed the ctxW pipeline: everything Completed. -/
def dbDone : DB := execute_blocking regW pipeW.1 pipeW.2

/-- A store holding one step row whose status column was corrupted to a string the
status parser rejects. -/
def dbGarbage : DB :=
  { emptyDB with
    steps := [{ id := 1, job_id := 1, pipeline_id := 1, name := "s", call := "hello",
                args := [], io := [], status := "Garbage", log_data := none }]
    next_step_id := 2 }

/-- A put followed by a get of the same (namespace, key) returns the stored value. -/
theorem get_put_object (db : DB) (ns key v : String) :
    get_object (put_object db ns key v) ns key = .ok v := by
  unfold get_object put_object
  rw [find_app_of_none (find_filter_none ?_)]
  · simp
  · intro x _ hp
    simp [hp]

/-- Claim C7: put_object followed by get_object on the same (namespace, key) returns
the stored value; a put over an already present (namespace, key) overwrites it, the
later put winning; and get_object on a (namespace, key) never put returns the NotFound
error kind. -/
theorem object_store_round_trip (db : DB) (ns key v v0 : String)
    (h : ∀ r ∈ db.objects, (r.ns == ns && r.key == key) = false) :
    get_object (put_object db ns key v) ns key = .ok v ∧
    get_object (put_object (put_object db ns key v0) ns key v) ns key = .ok v ∧
    get_object db ns key =
      .error (.NotFound ("Object in namespace " ++ ns ++ " with key " ++ key)) := by
  refine ⟨get_put_object db ns key v, get_put_object (put_object db ns key v0) ns key v, ?_⟩
  unfold get_object
  rw [find_none_of_all h]

/-- Witness for C7 at the fresh store, namespace "ns", key "k". -/
theorem object_store_round_trip_witness :
    (∀ r ∈ emptyDB.objects, (r.ns == "ns" && r.key == "k") = false) ∧
    (get_object (put_object emptyDB "ns" "k" "abc") "ns" "k" = .ok "abc" ∧
     get_object (put_object (put_object emptyDB "ns" "k" "xyz") "ns" "k" "abc") "ns" "k" = .ok "abc" ∧
     get_object emptyDB "ns" "k" =
       .error (.NotFound ("Object in namespace " ++ "ns" ++ " with key " ++ "k"))) :=
  ⟨by simp [emptyDB], object_store_round_trip emptyDB "ns" "k" "abc" "xyz" (by simp [emptyDB])⟩

/-- Claim C10: whenever the is_step_cancelled store query fails, for whatever reason,
StepContext::is_cancelled swallows the failure and reports false (not cancelled). -/
theorem is_cancelled_swallows_errors (db : DB) (step_id : Nat) (e : AnyErr)
    (h : is_step_cancelled db step_id = .error e) :
    StepContext.is_cancelled db step_id = false := by
  unfold StepContext.is_cancelled
  rw [h]

/-- Witness for C10: a store whose step row carries an unparsable status string makes
the query fail, and is_cancelled reports false. -/
theorem is_cancelled_swallows_errors_witness :
    is_step_cancelled dbGarbage 1 = .error (.msg "Matching variant not found") ∧
    StepContext.is_cancelled dbGarbage 1 = false :=
  ⟨rfl, is_cancelled_swallows_errors dbGarbage 1 (.msg "Matching variant not found") rfl⟩

/-- Counterexample to C9 as stated: the freshly inserted step of the ctxW pipeline
exists (status Pending) and its log was never persisted, yet get_step_log returns an
error (Database, from the NULL column decode) instead of empty bytes. -/
theorem step_log_null_database_error :
    stepStatusOf pipeW.2 1 = some "Pending" ∧
    get_step_log pipeW.2 1 = .error (.Database
      "error occurred while decoding column 0: unexpected null; try decoding as an Option") :=
  ⟨rfl, rfl⟩

/-- Claim C9 (amended): get_step_log returns NotFound exactly when the step id does not
exist; on an existing step it returns the persisted bytes when a log has been persisted
(possibly empty), but a step whose log was never persisted (log_data still NULL) yields
a Database decode error rather than empty bytes. -/
theorem get_step_log_spec (db : DB) (id : Nat) :
    (db.steps.find? (fun r => r.id == id) = none →
      get_step_log db id = .error (.NotFound ("Step log for " ++ toString id))) ∧
    (∀ r, db.steps.find? (fun r => r.id == id) = some r → r.log_data = none →
      get_step_log db id = .error (.Database
        "error occurred while decoding column 0: unexpected null; try decoding as an Option")) ∧
    (∀ r l, db.steps.find? (fun r => r.id == id) = some r → r.log_data = some l →
      get_step_log db id = .ok l) := by
  refine ⟨fun h => by simp [get_step_log, h], fun r h hl => by simp [get_step_log, h, hl],
    fun r l h hl => by simp [get_step_log, h, hl]⟩

/-- The completed step row of the finished ctxW pipeline. -/
def stepRowDoneW : StepRow :=
  { id := 1, job_id := 1, pipeline_id := 1, name := "greet", call := "hello",
    args := [("name", "world")], io := [], status := "Completed",
    log_data := some "Hello, world!\n" }

/-- Witness for C9: the missing-step case on the fresh store and the persisted-log case
on the finished ctxW pipeline. -/
theorem get_step_log_spec_witness :
    (emptyDB.steps.find? (fun r => r.id == 1) = none ∧
      get_step_log emptyDB 1 = .error (.NotFound ("Step log for " ++ toString 1))) ∧
    (dbDone.steps.find? (fun r => r.id == 1) = some stepRowDoneW ∧
      get_step_log dbDone 1 = .ok "Hello, world!\n") :=
  ⟨⟨rfl, (get_step_log_spec emptyDB 1).1 rfl⟩,
   ⟨rfl, (get_step_log_spec dbDone 1).2.2 stepRowDoneW "Hello, world!\n" rfl rfl⟩⟩

/-- Claim C5 (code bug): on the two-job pipeline of ctx2, queries.rs cancel_job(2)
leaves job 2 and its step untouched (its UPDATEs filter on pipeline_id = 2, matching
nothing), indeed it changes nothing at all; and cancel_job(1) cancels both jobs of
pipeline 1, not only job 1. -/
theorem cancel_job_wrong_filter :
    jobStatusOf pipe2.2 2 = some "Pending" ∧
    jobStatusOf (cancel_job pipe2.2 2) 2 = some "Pending" ∧
    stepStatusOf (cancel_job pipe2.2 2) 2 = some "Pending" ∧
    cancel_job pipe2.2 2 = pipe2.2 ∧
    jobStatusOf (cancel_job pipe2.2 1) 2 = some "Cancelled" := by
  decide

/-- The validation loop fails when some step of the list has an unregistered call. -/
theorem validateSteps_error_of (reg : Registry) (steps : List StepCfg)
    (h : ∃ s ∈ steps, Registry.get reg s.call = none) :
    ∃ e, validateSteps reg steps = .error e := by
  induction steps with
  | nil => simp at h
  | cons a t ih =>
    cases hget : Registry.get reg a.call with
    | none => exact ⟨"step executor not found: " ++ a.call, by simp [validateSteps, hget]⟩
    | some ex =>
      obtain ⟨s, hs, hnone⟩ := h
      rcases List.mem_cons.mp hs with rfl | hmem
      · rw [hget] at hnone; exact absurd hnone (by simp)
      · obtain ⟨e, he⟩ := ih ⟨s, hmem, hnone⟩
        exact ⟨e, by simp [validateSteps, hget, he]⟩

/-- The job validation loop fails when some job has a step with an unregistered call. -/
theorem validateJobs_error_of (reg : Registry) (jobs : List JobCfg)
    (h : ∃ j ∈ jobs, ∃ s ∈ j.steps, Registry.get reg s.call = none) :
    ∃ e, validateJobs reg jobs = .error e := by
  induction jobs with
  | nil => simp at h
  | cons a t ih =>
    obtain ⟨j, hj, hbad⟩ := h
    rcases List.mem_cons.mp hj with rfl | hmem
    · obtain ⟨e, he⟩ := validateSteps_error_of reg j.steps hbad
      exact ⟨e, by simp [validateJobs, he]⟩
    · cases hv : validateSteps reg a.steps with
      | error e => exact ⟨e, by simp [validateJobs, hv]⟩
      | ok u =>
        obtain ⟨e, he⟩ := ih ⟨j, hmem, hbad⟩
        exact ⟨e, by simp [validateJobs, hv, he]⟩

/-- Claim C4 (amended): when any step's call names an executor absent from the
registry, submit_pipeline fails before touching the store — but the error kind it
returns is Internal (the anyhow validation error is converted by the blanket From
impl), not Configuration — and no pipeline, job or step row is inserted, so
get_pipelines is unchanged. -/
theorem validation_gate_internal (reg : Registry) (ctx : Context) (db : DB)
    (h : ∃ j ∈ ctx.config.jobs, ∃ s ∈ j.steps, Registry.get reg s.call = none) :
    (∃ m, (submit_pipeline reg ctx db).1 = .error (.Internal m)) ∧
    (submit_pipeline reg ctx db).2 = db ∧
    get_pipelines (submit_pipeline reg ctx db).2 = get_pipelines db := by
  obtain ⟨e, he⟩ := validateJobs_error_of reg ctx.config.jobs h
  have hv : validate reg ctx = .error e := he
  refine ⟨⟨e, ?_⟩, ?_, ?_⟩ <;> simp [submit_pipeline, hv, papFromAnyhow, AnyErr.toMessage]

/-- Witness for C4 on the ctxBad submission against the hello-only registry. -/
theorem validation_gate_internal_witness :
    (∃ j ∈ ctxBad.config.jobs, ∃ s ∈ j.steps, Registry.get regW s.call = none) ∧
    ((∃ m, (submit_pipeline regW ctxBad emptyDB).1 = .error (.Internal m)) ∧
     (submit_pipeline regW ctxBad emptyDB).2 = emptyDB ∧
     get_pipelines (submit_pipeline regW ctxBad emptyDB).2 = get_pipelines emptyDB) := by
  have h : ∃ j ∈ ctxBad.config.jobs, ∃ s ∈ j.steps, Registry.get regW s.call = none := by
    refine ⟨{ name := "job1", steps := [{ name := "s1", call := "nonesuch", args := [], io := [] }] }, by simp [ctxBad], ?_⟩
    exact ⟨{ name := "s1", call := "nonesuch", args := [], io := [] }, by simp, rfl⟩
  exact ⟨h, validation_gate_internal regW ctxBad emptyDB h⟩

/-- Counterexample to C4 as stated: the submission with the unregistered call nonesuch
returns the Internal kind, never Configuration, though the store stays untouched. -/
theorem submit_unknown_call_internal :
    (submit_pipeline regW ctxBad emptyDB).1 =
      .error (.Internal "step executor not found: nonesuch") ∧
    (∀ m, (submit_pipeline regW ctxBad emptyDB).1 ≠ .error (.Configuration m)) ∧
    (submit_pipeline regW ctxBad emptyDB).2 = emptyDB := by
  have h1 : (submit_pipeline regW ctxBad emptyDB).1 =
      .error (.Internal "step executor not found: nonesuch") := rfl
  refine ⟨h1, ?_, rfl⟩
  intro m hcontra
  rw [h1] at hcontra
  simp at hcontra

/-- Unfold a pipeline status observation into the underlying row. -/
theorem pipelineStatusOf_row {db : DB} {pid : Nat} {s : String}
    (h : pipelineStatusOf db pid = some s) :
    ∃ r, db.pipelines.find? (fun r => r.id == pid) = some r ∧ r.execution_status = s := by
  unfold pipelineStatusOf at h
  cases hf : db.pipelines.find? (fun r => r.id == pid) with
  | none => rw [hf] at h; simp at h
  | some r =>
    rw [hf] at h
    simp only [Option.map_some'] at h
    exact ⟨r, rfl, Option.some.inj h⟩

/-- When the stored pipeline status string parses, get_pipeline_status succeeds and
reports the parsed status. -/
theorem get_pipeline_status_of_statusOf {db : DB} {pid : Nat} {s : String}
    {st : ExecutionStatus} (h : pipelineStatusOf db pid = some s)
    (hp : statusFromStr s = some st) :
    ∃ ps, get_pipeline_status db pid = .ok ps ∧ ps.status = st := by
  obtain ⟨r, hf, hs⟩ := pipelineStatusOf_row h
  refine ⟨{ id := pid, config := r.config, status := st,
            jobs := (db.jobs.filter (fun rr => rr.pipeline_id == pid)).map (·.id),
            error := none }, ?_, rfl⟩
  simp [get_pipeline_status, hf, hs, hp]

/-- The engine continuation from any job boundary leaves a Cancelled pipeline status
untouched: the job-loop head re-read returns early, and the final guarded write is
skipped. -/
theorem engineTail_keeps_cancelled (reg : Registry) (pid : Nat) (rest : List Nat)
    (db : DB) (h : pipelineStatusOf db pid = some "Cancelled") :
    pipelineStatusOf (engineTail reg pid rest db) pid = some "Cancelled" := by
  obtain ⟨ps, hok, hst⟩ :=
    get_pipeline_status_of_statusOf h (by rfl : statusFromStr "Cancelled" = some .Cancelled)
  cases rest with
  | nil =>
    simp only [engineTail, runJobs, hok, hst, ne_eq, not_true_eq_false, if_false]
    exact h
  | cons jid tl =>
    simp only [engineTail, runJobs, hok, hst, if_true, reduceIte]
    exact h

/-- cancel_pipeline writes Cancelled over whatever status the pipeline row held. -/
theorem pipelineStatusOf_cancel (db : DB) (pid : Nat)
    (h : ∃ r ∈ db.pipelines, r.id = pid) :
    pipelineStatusOf (cancel_pipeline db pid) pid = some "Cancelled" := by
  obtain ⟨r0, hr0, hid0⟩ := h
  unfold pipelineStatusOf cancel_pipeline
  rw [find_map_comm (by intro a; by_cases ha : a.id = pid <;> simp [ha])]
  have hsome : (db.pipelines.find? (fun r => r.id == pid)).isSome := by
    rw [List.find?_isSome]
    exact ⟨r0, hr0, by simp [hid0]⟩
  obtain ⟨x, hx⟩ := Option.isSome_iff_exists.mp hsome
  have hpx : x.id = pid := by simpa using List.find?_some hx
  rw [hx]
  simp [hpx, ExecutionStatus.toStr]

/-- Claim C1 (amended): the engine continuation from a job boundary never changes a
Cancelled pipeline status (so the engine never promotes a cancelled pipeline); the
stickiness does not extend to cancel_pipeline and store_error, which overwrite
terminal values blindly. -/
theorem terminal_stickiness_engine (reg : Registry) (pid : Nat) (rest : List Nat)
    (db : DB) (h : pipelineStatusOf db pid = some "Cancelled") :
    pipelineStatusOf (engineTail reg pid rest db) pid = some "Cancelled" :=
  engineTail_keeps_cancelled reg pid rest db h

/-- Witness for C1: the cancelled ctxW pipeline stays Cancelled through an engine
continuation over its job list. -/
theorem terminal_stickiness_engine_witness :
    pipelineStatusOf (cancel_pipeline pipeW.2 1) 1 = some "Cancelled" ∧
    pipelineStatusOf (engineTail regW 1 [1] (cancel_pipeline pipeW.2 1)) 1 = some "Cancelled" :=
  ⟨rfl, terminal_stickiness_engine regW 1 [1] (cancel_pipeline pipeW.2 1) rfl⟩

/-- Counterexample to C1 as stated: the ctxW pipeline has reached the terminal status
Completed, yet a later cancel_pipeline changes the observed terminal value to
Cancelled. -/
theorem cancel_pipeline_overwrites_completed :
    pipelineStatusOf dbDone 1 = some "Completed" ∧
    pipelineStatusOf (cancel_pipeline dbDone 1) 1 = some "Cancelled" :=
  ⟨rfl, rfl⟩

/-- Claim C2 (amended): a cancel_pipeline that lands at a job boundary of the running
engine dominates — the engine writes nothing further over the pipeline status and the
final status is Cancelled. -/
theorem cancel_dominance_job_boundary (reg : Registry) (pid : Nat) (rest : List Nat)
    (db : DB) (h : ∃ r ∈ db.pipelines, r.id = pid) :
    pipelineStatusOf (engineTail reg pid rest (cancel_pipeline db pid)) pid = some "Cancelled" :=
  engineTail_keeps_cancelled reg pid rest (cancel_pipeline db pid)
    (pipelineStatusOf_cancel db pid h)

/-- Witness for C2 on the submitted ctxW pipeline. -/
theorem cancel_dominance_job_boundary_witness :
    (∃ r ∈ pipeW.2.pipelines, r.id = 1) ∧
    pipelineStatusOf (engineTail regW 1 [1] (cancel_pipeline pipeW.2 1)) 1 = some "Cancelled" :=
  ⟨by decide, cancel_dominance_job_boundary regW 1 [1] pipeW.2 (by decide)⟩

/-- Counterexample to C2 as stated: cancel_pipeline invoked right after submission
(status Pending, before the engine's first write, hence before any terminal state) is
completely lost — the engine blindly writes Running and drives the pipeline and its job
to Completed, so the eventual terminal state is Completed, not Cancelled. -/
theorem cancel_before_engine_lost :
    pipelineStatusOf pipeW.2 1 = some "Pending" ∧
    pipelineStatusOf (cancel_pipeline pipeW.2 1) 1 = some "Cancelled" ∧
    pipelineStatusOf (execute_blocking regW pipeW.1 (cancel_pipeline pipeW.2 1)) 1 =
      some "Completed" ∧
    jobStatusOf (execute_blocking regW pipeW.1 (cancel_pipeline pipeW.2 1)) 1 =
      some "Completed" :=
  ⟨rfl, rfl, rfl, rfl⟩

/-- Claim C6 (amended): after delete_pipeline, neither the pipeline nor its jobs nor
their steps are retrievable, in one transaction; get_step_log reports the NotFound
kind, while get_pipeline and get_job report the not-found condition wrapped as
Internal, the From conversion at the RPC boundary having erased the kind. -/
theorem delete_cascade_spec (db : DB) (pid jid sid : Nat)
    (hj : ∀ r ∈ db.jobs, r.id = jid → r.pipeline_id = pid)
    (hs : ∀ r ∈ db.steps, r.id = sid → (jobIdsOfPipeline db pid).contains r.job_id = true) :
    rpc_get_pipeline (delete_pipeline db pid) pid =
      .error (.Internal ("Resource not found: " ++ ("Pipeline " ++ toString pid))) ∧
    rpc_get_job (delete_pipeline db pid) jid =
      .error (.Internal ("Resource not found: " ++ ("Job " ++ toString jid))) ∧
    get_step_log (delete_pipeline db pid) sid =
      .error (.NotFound ("Step log for " ++ toString sid)) := by
  have hp1 : ((delete_pipeline db pid).pipelines.find? (fun r => r.id == pid)) = none := by
    unfold delete_pipeline
    exact find_filter_none fun x _ hp => by simp_all
  have hj1 : ((delete_pipeline db pid).jobs.find? (fun r => r.id == jid)) = none := by
    unfold delete_pipeline
    refine find_filter_none fun x hx hp => ?_
    have := hj x hx (by simpa using hp)
    simp [this]
  have hs1 : ((delete_pipeline db pid).steps.find? (fun r => r.id == sid)) = none := by
    unfold delete_pipeline
    refine find_filter_none fun x hx hp => ?_
    have := hs x hx (by simpa using hp)
    simpa using this
  refine ⟨?_, ?_, ?_⟩
  · simp [rpc_get_pipeline, get_pipeline_status, hp1, papFromAnyhow, AnyErr.toMessage,
      PapError.toMessage]
  · simp [rpc_get_job, get_job_status, hj1, papFromAnyhow, AnyErr.toMessage,
      PapError.toMessage]
  · simp [get_step_log, hs1]

/-- Witness for C6 on the submitted two-job pipeline. -/
theorem delete_cascade_spec_witness :
    (∀ r ∈ pipe2.2.jobs, r.id = 1 → r.pipeline_id = 1) ∧
    (∀ r ∈ pipe2.2.steps, r.id = 1 → (jobIdsOfPipeline pipe2.2 1).contains r.job_id = true) ∧
    get_step_log (delete_pipeline pipe2.2 1) 1 =
      .error (.NotFound ("Step log for " ++ toString 1)) :=
  ⟨by decide, by decide, (delete_cascade_spec pipe2.2 1 1 1 (by decide) (by decide)).2.2⟩

/-- Counterexample to C6 as stated: after deleting the two-job pipeline, get_step_log
does return the NotFound kind, but get_pipeline and get_job return Internal — the
NotFound kind was erased by the anyhow conversion — so the claim that they return
NotFound is false. -/
theorem delete_cascade_kind_erased :
    rpc_get_pipeline (delete_pipeline pipe2.2 1) 1 =
      .error (.Internal "Resource not found: Pipeline 1") ∧
    (∀ m, rpc_get_pipeline (delete_pipeline pipe2.2 1) 1 ≠ .error (.NotFound m)) ∧
    rpc_get_job (delete_pipeline pipe2.2 1) 1 =
      .error (.Internal "Resource not found: Job 1") ∧
    get_step_log (delete_pipeline pipe2.2 1) 1 = .error (.NotFound "Step log for 1") := by
  have h1 : rpc_get_pipeline (delete_pipeline pipe2.2 1) 1 =
      .error (.Internal "Resource not found: Pipeline 1") := rfl
  refine ⟨h1, ?_, rfl, rfl⟩
  intro m hcontra
  rw [h1] at hcontra
  simp at hcontra

/-! Closed forms for the rows setup_pipeline inserts. -/

/-- The consecutive ids start, start+1, ..., start+n-1. -/
def idsFrom (start : Nat) : Nat → List Nat
  | 0 => []
  | n+1 => start :: idsFrom (start+1) n

/-- The job row setup_pipeline inserts for one declared job. -/
def jobRowB (jid pid : Nat) (c : JobCfg) : JobRow :=
  { id := jid, pipeline_id := pid, name := c, status := "Pending", current_step := 0 }

/-- The job rows of a declared job list, with consecutive ids. -/
def jobRowsB (jid pid : Nat) : List JobCfg → List JobRow
  | [] => []
  | c :: cs => jobRowB jid pid c :: jobRowsB (jid+1) pid cs

/-- The step row setup_pipeline inserts for one declared step. -/
def stepRowB (sid jid pid : Nat) (s : StepCfg) : StepRow :=
  { id := sid, job_id := jid, pipeline_id := pid, name := s.name, call := s.call,
    args := s.args, io := s.io, status := "Pending", log_data := none }

/-- The step rows of one job's declared steps, with consecutive ids. -/
def stepRowsForB (sid jid pid : Nat) : List StepCfg → List StepRow
  | [] => []
  | s :: ss => stepRowB sid jid pid s :: stepRowsForB (sid+1) jid pid ss

/-- The step rows of a declared job list. -/
def stepRowsB (sid jid pid : Nat) : List JobCfg → List StepRow
  | [] => []
  | c :: cs =>
    stepRowsForB sid jid pid c.steps ++ stepRowsB (sid + c.steps.length) (jid+1) pid cs

/-- Total number of declared steps. -/
def totalSteps : List JobCfg → Nat
  | [] => 0
  | c :: cs => c.steps.length + totalSteps cs

theorem insertSteps_spec (jid pid : Nat) (ss : List StepCfg) (db : DB) :
    insertSteps db jid pid ss =
      { db with steps := db.steps ++ stepRowsForB db.next_step_id jid pid ss,
                next_step_id := db.next_step_id + ss.length } := by
  induction ss generalizing db with
  | nil => simp [insertSteps, stepRowsForB]
  | cons s ss ih =>
    have heq : insertSteps db jid pid (s :: ss) =
        insertSteps (insertStep db jid pid s) jid pid ss := rfl
    rw [heq, ih]
    simp only [insertStep, stepRowsForB, stepRowB, List.append_assoc, List.singleton_append,
      List.length_cons]
    congr 1
    omega

theorem insertJob_spec (pid : Nat) (c : JobCfg) (db : DB) :
    insertJob db pid c =
      ({ db with
         jobs := db.jobs ++ [jobRowB db.next_job_id pid c],
         steps := db.steps ++ stepRowsForB db.next_step_id db.next_job_id pid c.steps,
         next_job_id := db.next_job_id + 1,
         next_step_id := db.next_step_id + c.steps.length }, db.next_job_id) := by
  unfold insertJob
  simp [insertSteps_spec, jobRowB]

theorem insertJobs_spec (pid : Nat) (cfgs : List JobCfg) (db : DB) :
    insertJobs db pid cfgs =
      ({ db with
         jobs := db.jobs ++ jobRowsB db.next_job_id pid cfgs,
         steps := db.steps ++ stepRowsB db.next_step_id db.next_job_id pid cfgs,
         next_job_id := db.next_job_id + cfgs.length,
         next_step_id := db.next_step_id + totalSteps cfgs },
       idsFrom db.next_job_id cfgs.length) := by
  induction cfgs generalizing db with
  | nil => simp [insertJobs, jobRowsB, stepRowsB, totalSteps, idsFrom]
  | cons c cs ih =>
    simp only [insertJobs]
    rw [insertJob_spec, ih]
    simp only [jobRowsB, stepRowsB, totalSteps, idsFrom, List.append_assoc,
      List.singleton_append, List.length_cons]
    congr 2
    · omega
    · omega

theorem setup_pipeline_spec (ctx : Context) (db : DB) :
    setup_pipeline db ctx =
      ({ id := db.next_pipeline_id, config := ctx.config, status := .Running,
         jobs := idsFrom db.next_job_id ctx.config.jobs.length, error := none },
       { db with
         pipelines := db.pipelines ++
           [{ id := db.next_pipeline_id, config := ctx.config, context := ctx,
              execution_status := "Pending" }],
         jobs := db.jobs ++ jobRowsB db.next_job_id db.next_pipeline_id ctx.config.jobs,
         steps := db.steps ++
           stepRowsB db.next_step_id db.next_job_id db.next_pipeline_id ctx.config.jobs,
         next_pipeline_id := db.next_pipeline_id + 1,
         next_job_id := db.next_job_id + ctx.config.jobs.length,
         next_step_id := db.next_step_id + totalSteps ctx.config.jobs }) := by
  unfold setup_pipeline
  simp [insertJobs_spec]

theorem mem_jobRowsB {r : JobRow} {jid pid : Nat} {cs : List JobCfg}
    (h : r ∈ jobRowsB jid pid cs) :
    jid ≤ r.id ∧ r.id < jid + cs.length ∧ r.pipeline_id = pid ∧ r.status = "Pending" := by
  induction cs generalizing jid with
  | nil => simp [jobRowsB] at h
  | cons c cs ih =>
    rcases List.mem_cons.mp h with rfl | hmem
    · simp [jobRowB]
    · obtain ⟨h1, h2, h3, h4⟩ := ih hmem
      exact ⟨by omega, by simp [List.length_cons]; omega, h3, h4⟩

theorem mem_stepRowsForB {r : StepRow} {sid jid pid : Nat} {ss : List StepCfg}
    (h : r ∈ stepRowsForB sid jid pid ss) :
    sid ≤ r.id ∧ r.id < sid + ss.length ∧ r.job_id = jid ∧ r.pipeline_id = pid ∧
      r.status = "Pending" := by
  induction ss generalizing sid with
  | nil => simp [stepRowsForB] at h
  | cons s ss ih =>
    rcases List.mem_cons.mp h with rfl | hmem
    · simp [stepRowB]
    · obtain ⟨h1, h2, h3, h4, h5⟩ := ih hmem
      exact ⟨by omega, by simp [List.length_cons]; omega, h3, h4, h5⟩

theorem mem_stepRowsB {r : StepRow} {sid jid pid : Nat} {cs : List JobCfg}
    (h : r ∈ stepRowsB sid jid pid cs) :
    sid ≤ r.id ∧ r.id < sid + totalSteps cs ∧ jid ≤ r.job_id ∧
      r.job_id < jid + cs.length ∧ r.pipeline_id = pid ∧ r.status = "Pending" := by
  induction cs generalizing sid jid with
  | nil => simp [stepRowsB] at h
  | cons c cs ih =>
    rcases List.mem_append.mp h with hmem | hmem
    · obtain ⟨h1, h2, h3, h4, h5⟩ := mem_stepRowsForB hmem
      refine ⟨h1, ?_, by omega, ?_, h4, h5⟩
      · simp [totalSteps]; omega
      · simp [List.length_cons]; omega
    · obtain ⟨h1, h2, h3, h4, h5, h6⟩ := ih hmem
      refine ⟨by omega, ?_, by omega, ?_, h5, h6⟩
      · simp [totalSteps]; omega
      · simp [List.length_cons]; omega

theorem filter_none_of_all {α} {p : α → Bool} {l : List α} (h : ∀ x ∈ l, p x = false) :
    l.filter p = [] := by
  induction l with
  | nil => rfl
  | cons a t ih =>
    simp only [List.filter_cons, h a (by simp)]
    exact ih fun x hx => h x (by simp [hx])

theorem idsFrom_length (s n : Nat) : (idsFrom s n).length = n := by
  induction n generalizing s with
  | zero => rfl
  | succ n ih => simp [idsFrom, ih]

theorem idsFrom_getElem {s n i jid : Nat} (h : (idsFrom s n)[i]? = some jid) :
    jid = s + i ∧ i < n := by
  induction n generalizing s i with
  | zero => simp [idsFrom] at h
  | succ n ih =>
    cases i with
    | zero =>
      simp [idsFrom] at h
      omega
    | succ i =>
      simp only [idsFrom, List.getElem?_cons_succ] at h
      obtain ⟨h1, h2⟩ := ih h
      exact ⟨by omega, by omega⟩

theorem jobRowsB_find {jid pid : Nat} {cs : List JobCfg} {i : Nat} {c : JobCfg}
    (h : cs[i]? = some c) :
    (jobRowsB jid pid cs).find? (fun r => r.id == jid + i) =
      some (jobRowB (jid + i) pid c) := by
  induction cs generalizing jid i with
  | nil => simp at h
  | cons a cs ih =>
    cases i with
    | zero =>
      simp only [List.length_cons, List.getElem?_cons_zero, Option.some.injEq] at h
      subst h
      simp [jobRowsB, List.find?_cons, jobRowB]
    | succ i =>
      simp only [List.getElem?_cons_succ] at h
      have hh : ((jobRowB jid pid a).id == jid + (i+1)) = false := by
        simp [jobRowB]
      simp only [jobRowsB, List.find?_cons, hh]
      have e : jid + (i + 1) = (jid + 1) + i := by omega
      rw [e]
      exact ih h

theorem jobRowsB_filter_pid (jid pid : Nat) (cs : List JobCfg) :
    (jobRowsB jid pid cs).filter (fun r => r.pipeline_id == pid) = jobRowsB jid pid cs := by
  induction cs generalizing jid with
  | nil => rfl
  | cons a cs ih => simp [jobRowsB, List.filter_cons, jobRowB, ih]

theorem jobRowsB_map_id (jid pid : Nat) (cs : List JobCfg) :
    (jobRowsB jid pid cs).map (·.id) = idsFrom jid cs.length := by
  induction cs generalizing jid with
  | nil => rfl
  | cons a cs ih => simp [jobRowsB, idsFrom, jobRowB, ih]

theorem stepRowsForB_filter_self (sid jid pid : Nat) (ss : List StepCfg) :
    (stepRowsForB sid jid pid ss).filter (fun r => r.job_id == jid) =
      stepRowsForB sid jid pid ss := by
  induction ss generalizing sid with
  | nil => rfl
  | cons s ss ih => simp [stepRowsForB, List.filter_cons, stepRowB, ih]

theorem stepRowsForB_filter_ne {sid jid pid tgt : Nat} (ss : List StepCfg)
    (h : tgt ≠ jid) :
    (stepRowsForB sid jid pid ss).filter (fun r => r.job_id == tgt) = [] := by
  apply filter_none_of_all
  intro x hx
  have := (mem_stepRowsForB hx).2.2.1
  simp [this]
  omega

theorem stepRowsB_filter_small {sid jid pid tgt : Nat} (cs : List JobCfg)
    (h : tgt < jid) :
    (stepRowsB sid jid pid cs).filter (fun r => r.job_id == tgt) = [] := by
  apply filter_none_of_all
  intro x hx
  have := (mem_stepRowsB hx).2.2.1
  simp
  omega

theorem stepRowsB_filter_at {sid jid pid : Nat} {cs : List JobCfg} {i : Nat} {c : JobCfg}
    (h : cs[i]? = some c) :
    (stepRowsB sid jid pid cs).filter (fun r => r.job_id == jid + i) =
      stepRowsForB (sid + totalSteps (cs.take i)) (jid + i) pid c.steps := by
  induction cs generalizing sid jid i with
  | nil => simp at h
  | cons a cs ih =>
    cases i with
    | zero =>
      simp only [List.getElem?_cons_zero, Option.some.injEq] at h
      subst h
      simp only [stepRowsB, List.filter_append, Nat.add_zero]
      rw [stepRowsForB_filter_self, stepRowsB_filter_small cs (by omega)]
      simp [totalSteps]
    | succ i =>
      simp only [List.getElem?_cons_succ] at h
      simp only [stepRowsB, List.filter_append]
      rw [stepRowsForB_filter_ne a.steps (by omega : jid + (i+1) ≠ jid)]
      have e : jid + (i + 1) = (jid + 1) + i := by omega
      rw [e, ih h]
      simp only [List.take_succ_cons, totalSteps, List.nil_append]
      congr 1
      omega

theorem insertByIdAsc_of_le {r : StepRow} {l : List StepRow}
    (h : ∀ x ∈ l, r.id ≤ x.id) : insertByIdAsc r l = r :: l := by
  cases l with
  | nil => rfl
  | cons x xs => simp [insertByIdAsc, h x (by simp)]

theorem sortByIdAsc_of_sorted {l : List StepRow}
    (h : l.Pairwise (fun a b => a.id ≤ b.id)) : sortByIdAsc l = l := by
  induction l with
  | nil => rfl
  | cons r l ih =>
    have h1 := List.pairwise_cons.mp h
    have : sortByIdAsc (r :: l) = insertByIdAsc r (sortByIdAsc l) := rfl
    rw [this, ih h1.2, insertByIdAsc_of_le h1.1]

theorem stepRowsForB_pairwise (sid jid pid : Nat) (ss : List StepCfg) :
    (stepRowsForB sid jid pid ss).Pairwise (fun a b => a.id ≤ b.id) := by
  induction ss generalizing sid with
  | nil => exact List.Pairwise.nil
  | cons s ss ih =>
    refine List.pairwise_cons.mpr ⟨fun x hx => ?_, ih (sid+1)⟩
    have := (mem_stepRowsForB hx).1
    simp [stepRowB]
    omega

/-- The StepStatus values of freshly inserted (Pending, no log) steps. -/
def pendingStepStatuses (sid : Nat) : List StepCfg → List StepStatusM
  | [] => []
  | s :: ss =>
    { id := sid, config := s, status := .Pending, output := none } ::
      pendingStepStatuses (sid+1) ss

theorem parse_stepRowsForB (sid jid pid : Nat) (ss : List StepCfg) :
    parseStepRows (stepRowsForB sid jid pid ss) = .ok (pendingStepStatuses sid ss) := by
  induction ss generalizing sid with
  | nil => rfl
  | cons s ss ih =>
    simp [parseStepRows, stepRowsForB, stepRowB, stepCfgOfRow, statusFromStr,
      pendingStepStatuses, ih]

theorem pendingStepStatuses_map_config (sid : Nat) (ss : List StepCfg) :
    (pendingStepStatuses sid ss).map (fun s => s.config) = ss := by
  induction ss generalizing sid with
  | nil => rfl
  | cons s ss ih => simp [pendingStepStatuses, ih]

/-- Claim C8: after a submission, the steps of every JobStatus returned by get_job
appear in the order the steps were declared in the submitted config, and the jobs list
of the PipelineStatus returned by get_pipeline appears in the order the jobs were
declared. -/
theorem order_preservation (db : DB) (hwf : WF db) (ctx : Context) :
    (get_pipeline_status (setup_pipeline db ctx).2 (setup_pipeline db ctx).1.id).map
        (fun ps => ps.jobs) = .ok (setup_pipeline db ctx).1.jobs ∧
    (setup_pipeline db ctx).1.jobs.length = ctx.config.jobs.length ∧
    (∀ (i jid : Nat) (c : JobCfg), (setup_pipeline db ctx).1.jobs[i]? = some jid →
       ctx.config.jobs[i]? = some c →
       ∃ js, get_job_status (setup_pipeline db ctx).2 jid = .ok js ∧
         js.config = c ∧ js.steps.map (fun s => s.config) = c.steps) := by
  rw [setup_pipeline_spec]
  simp only
  refine ⟨?_, idsFrom_length _ _, ?_⟩
  · have hfp : (db.pipelines ++
        [{ id := db.next_pipeline_id, config := ctx.config, context := ctx,
           execution_status := "Pending" : PipelineRow }]).find?
          (fun r => r.id == db.next_pipeline_id) =
        some { id := db.next_pipeline_id, config := ctx.config, context := ctx,
               execution_status := "Pending" } := by
      rw [find_app_of_none (find_none_of_all fun r hr => ?_)]
      · simp
      · have := hwf.pipeline_ids r hr
        simp
        omega
    have hjf : (db.jobs ++ jobRowsB db.next_job_id db.next_pipeline_id ctx.config.jobs).filter
          (fun r => r.pipeline_id == db.next_pipeline_id) =
        jobRowsB db.next_job_id db.next_pipeline_id ctx.config.jobs := by
      rw [List.filter_append, filter_none_of_all fun r hr => ?_, jobRowsB_filter_pid]
      · simp
      · have := hwf.job_pipeline_ids r hr
        simp
        omega
    simp [get_pipeline_status, hfp, hjf, statusFromStr, jobRowsB_map_id, Except.map]
  · intro i jid c hj hc
    obtain ⟨rfl, hi⟩ := idsFrom_getElem hj
    have hjfind : (db.jobs ++ jobRowsB db.next_job_id db.next_pipeline_id ctx.config.jobs).find?
          (fun r => r.id == db.next_job_id + i) =
        some (jobRowB (db.next_job_id + i) db.next_pipeline_id c) := by
      rw [find_app_of_none (find_none_of_all fun r hr => ?_), jobRowsB_find hc]
      have := hwf.job_ids r hr
      simp
      omega
    have hsteps : (db.steps ++
          stepRowsB db.next_step_id db.next_job_id db.next_pipeline_id ctx.config.jobs).filter
          (fun r => r.job_id == db.next_job_id + i) =
        stepRowsForB (db.next_step_id + totalSteps (ctx.config.jobs.take i))
          (db.next_job_id + i) db.next_pipeline_id c.steps := by
      rw [List.filter_append, filter_none_of_all fun r hr => ?_, stepRowsB_filter_at hc]
      · simp
      · have := hwf.step_job_ids r hr
        simp
        omega
    refine ⟨{ id := db.next_job_id + i, config := c,
              steps := pendingStepStatuses
                (db.next_step_id + totalSteps (ctx.config.jobs.take i)) c.steps,
              status := .Pending, current_step := some 0 }, ?_, rfl,
            pendingStepStatuses_map_config _ _⟩
    simp [get_job_status, hjfind, hsteps,
      sortByIdAsc_of_sorted (stepRowsForB_pairwise _ _ _ _), parse_stepRowsForB,
      jobRowB, statusFromStr]

/-- Witness for C8 on the two-job submission ctx2 over the fresh store. -/
theorem order_preservation_witness :
    WF emptyDB ∧
    (get_pipeline_status (setup_pipeline emptyDB ctx2).2
        (setup_pipeline emptyDB ctx2).1.id).map (fun ps => ps.jobs) =
      .ok (setup_pipeline emptyDB ctx2).1.jobs :=
  ⟨wf_emptyDB, (order_preservation emptyDB wf_emptyDB ctx2).1⟩

/-! Machinery for walking the Engine over a submitted pipeline (claim C3). -/

/-- The step's executor is registered and succeeds on the step's config. -/
def execOkP (reg : Registry) (s : StepCfg) : Prop :=
  ∃ ex, Registry.get reg s.call = some ex ∧ (ex.run s).1 = .ok ()

/-- The log an executor leaves for a step (empty when the call is unregistered, in
which case the engine never writes a log). -/
def execLog (reg : Registry) (s : StepCfg) : String :=
  match Registry.get reg s.call with
  | some ex => (ex.run s).2
  | none => ""

/-- A step row after the engine completed the step: status Completed, log persisted. -/
def doneStepRow (reg : Registry) (sid jid pid : Nat) (s : StepCfg) : StepRow :=
  { id := sid, job_id := jid, pipeline_id := pid, name := s.name, call := s.call,
    args := s.args, io := s.io, status := "Completed", log_data := some (execLog reg s) }

/-- Completed step rows of one job's step list. -/
def doneStepRowsForB (reg : Registry) (sid jid pid : Nat) : List StepCfg → List StepRow
  | [] => []
  | s :: ss => doneStepRow reg sid jid pid s :: doneStepRowsForB reg (sid+1) jid pid ss

/-- Completed step rows of a whole job list. -/
def doneStepRowsB (reg : Registry) (sid jid pid : Nat) : List JobCfg → List StepRow
  | [] => []
  | c :: cs =>
    doneStepRowsForB reg sid jid pid c.steps ++
      doneStepRowsB reg (sid + c.steps.length) (jid+1) pid cs

/-- A job row after the engine completed the job. -/
def doneJobRow (jid pid : Nat) (c : JobCfg) : JobRow :=
  { id := jid, pipeline_id := pid, name := c, status := "Completed", current_step := 0 }

/-- Completed job rows of a job list. -/
def doneJobRowsB (jid pid : Nat) : List JobCfg → List JobRow
  | [] => []
  | c :: cs => doneJobRow jid pid c :: doneJobRowsB (jid+1) pid cs

/-- A step row after its executor failed: status Failed, log persisted. -/
def failedStepRow (reg : Registry) (sid jid pid : Nat) (s : StepCfg) : StepRow :=
  { id := sid, job_id := jid, pipeline_id := pid, name := s.name, call := s.call,
    args := s.args, io := s.io, status := "Failed", log_data := some (execLog reg s) }

/-- The job row of the failed job, mid-run (current_step still at its default). -/
def failedJobRow (jid pid : Nat) (c : JobCfg) : JobRow :=
  { id := jid, pipeline_id := pid, name := c, status := "Failed", current_step := 0 }

/-- The job row of the running job. -/
def runningJobRow (jid pid : Nat) (c : JobCfg) : JobRow :=
  { id := jid, pipeline_id := pid, name := c, status := "Running", current_step := 0 }

/-- The StepStatus values of completed steps, as get_job_status parses them back. -/
def doneStepStatuses (reg : Registry) (sid : Nat) : List StepCfg → List StepStatusM
  | [] => []
  | s :: ss =>
    { id := sid, config := s, status := .Completed, output := some (execLog reg s) } ::
      doneStepStatuses reg (sid+1) ss

theorem mem_doneStepRowsForB {reg : Registry} {r : StepRow} {sid jid pid : Nat}
    {ss : List StepCfg} (h : r ∈ doneStepRowsForB reg sid jid pid ss) :
    sid ≤ r.id ∧ r.id < sid + ss.length ∧ r.job_id = jid ∧ r.pipeline_id = pid := by
  induction ss generalizing sid with
  | nil => simp [doneStepRowsForB] at h
  | cons s ss ih =>
    rcases List.mem_cons.mp h with rfl | hmem
    · simp [doneStepRow]
    · obtain ⟨h1, h2, h3, h4⟩ := ih hmem
      exact ⟨by omega, by simp [List.length_cons]; omega, h3, h4⟩

theorem mem_doneStepRowsB {reg : Registry} {r : StepRow} {sid jid pid : Nat}
    {cs : List JobCfg} (h : r ∈ doneStepRowsB reg sid jid pid cs) :
    sid ≤ r.id ∧ r.id < sid + totalSteps cs ∧ jid ≤ r.job_id ∧
      r.job_id < jid + cs.length := by
  induction cs generalizing sid jid with
  | nil => simp [doneStepRowsB] at h
  | cons c cs ih =>
    rcases List.mem_append.mp h with hmem | hmem
    · obtain ⟨h1, h2, h3, h4⟩ := mem_doneStepRowsForB hmem
      refine ⟨h1, ?_, by omega, ?_⟩
      · simp [totalSteps]; omega
      · simp [List.length_cons]; omega
    · obtain ⟨h1, h2, h3, h4⟩ := ih hmem
      refine ⟨by omega, ?_, by omega, ?_⟩
      · simp [totalSteps]; omega
      · simp [List.length_cons]; omega

theorem mem_doneJobRowsB {r : JobRow} {jid pid : Nat} {cs : List JobCfg}
    (h : r ∈ doneJobRowsB jid pid cs) :
    jid ≤ r.id ∧ r.id < jid + cs.length ∧ r.pipeline_id = pid ∧
      r.status = "Completed" := by
  induction cs generalizing jid with
  | nil => simp [doneJobRowsB] at h
  | cons c cs ih =>
    rcases List.mem_cons.mp h with rfl | hmem
    · simp [doneJobRow]
    · obtain ⟨h1, h2, h3, h4⟩ := ih hmem
      exact ⟨by omega, by simp [List.length_cons]; omega, h3, h4⟩

theorem doneStepRowsForB_append (reg : Registry) (sid jid pid : Nat)
    (l1 l2 : List StepCfg) :
    doneStepRowsForB reg sid jid pid (l1 ++ l2) =
      doneStepRowsForB reg sid jid pid l1 ++
        doneStepRowsForB reg (sid + l1.length) jid pid l2 := by
  induction l1 generalizing sid with
  | nil => simp [doneStepRowsForB]
  | cons s l1 ih =>
    simp only [List.cons_append, doneStepRowsForB, List.length_cons, List.append_eq]
    rw [ih]
    have e : sid + 1 + l1.length = sid + (l1.length + 1) := by omega
    rw [e]

theorem parseStepRows_append {l1 l2 : List StepRow} {a b : List StepStatusM}
    (h1 : parseStepRows l1 = .ok a) (h2 : parseStepRows l2 = .ok b) :
    parseStepRows (l1 ++ l2) = .ok (a ++ b) := by
  induction l1 generalizing a with
  | nil =>
    simp [parseStepRows] at h1
    subst h1
    simpa using h2
  | cons r l1 ih =>
    simp only [parseStepRows] at h1
    cases hs : statusFromStr r.status with
    | none => rw [hs] at h1; exact absurd h1 (by simp)
    | some st =>
      rw [hs] at h1
      cases hp : parseStepRows l1 with
      | error e => rw [hp] at h1; exact absurd h1 (by simp)
      | ok ss =>
        rw [hp] at h1
        simp only [Except.ok.injEq] at h1
        subst h1
        simp only [List.cons_append, parseStepRows, hs, List.append_eq, ih hp]

theorem parse_doneStepRowsForB (reg : Registry) (sid jid pid : Nat)
    (ss : List StepCfg) :
    parseStepRows (doneStepRowsForB reg sid jid pid ss) =
      .ok (doneStepStatuses reg sid ss) := by
  induction ss generalizing sid with
  | nil => rfl
  | cons s ss ih =>
    simp [parseStepRows, doneStepRowsForB, doneStepRow, stepCfgOfRow, statusFromStr,
      doneStepStatuses, ih]

theorem doneStepRowsForB_pairwise (reg : Registry) (sid jid pid : Nat)
    (ss : List StepCfg) :
    (doneStepRowsForB reg sid jid pid ss).Pairwise (fun a b => a.id ≤ b.id) := by
  induction ss generalizing sid with
  | nil => exact List.Pairwise.nil
  | cons s ss ih =>
    refine List.pairwise_cons.mpr ⟨fun x hx => ?_, ih (sid+1)⟩
    have := (mem_doneStepRowsForB hx).1
    simp [doneStepRow]
    omega

theorem stepRowsForB_find {sid jid pid : Nat} {ss : List StepCfg} {i : Nat}
    {s : StepCfg} (h : ss[i]? = some s) :
    (stepRowsForB sid jid pid ss).find? (fun r => r.id == sid + i) =
      some (stepRowB (sid + i) jid pid s) := by
  induction ss generalizing sid i with
  | nil => simp at h
  | cons a ss ih =>
    cases i with
    | zero =>
      simp only [List.getElem?_cons_zero, Option.some.injEq] at h
      subst h
      simp [stepRowsForB, List.find?_cons, stepRowB]
    | succ i =>
      simp only [List.getElem?_cons_succ] at h
      have hh : ((stepRowB sid jid pid a).id == sid + (i+1)) = false := by
        simp [stepRowB]
      simp only [stepRowsForB, List.find?_cons, hh]
      have e : sid + (i + 1) = (sid + 1) + i := by omega
      rw [e]
      exact ih h

theorem find_app_of_some {α} {p : α → Bool} {l1 l2 : List α} {x : α}
    (h : l1.find? p = some x) : (l1 ++ l2).find? p = some x := by
  induction l1 with
  | nil => simp [List.find?] at h
  | cons a t ih =>
    simp only [List.cons_append, List.find?_cons] at h ⊢
    cases hpa : p a with
    | false => simp only [hpa] at h ⊢; exact ih h
    | true => simpa [hpa] using h

theorem stepRowsB_find_at {sid jid pid : Nat} {cs : List JobCfg} {i i2 : Nat}
    {c : JobCfg} {s : StepCfg} (hc : cs[i]? = some c) (hs : c.steps[i2]? = some s) :
    (stepRowsB sid jid pid cs).find?
        (fun r => r.id == sid + totalSteps (cs.take i) + i2) =
      some (stepRowB (sid + totalSteps (cs.take i) + i2) (jid + i) pid s) := by
  induction cs generalizing sid jid i with
  | nil => simp at hc
  | cons a cs ih =>
    cases i with
    | zero =>
      simp only [List.getElem?_cons_zero, Option.some.injEq] at hc
      subst hc
      simp only [stepRowsB, List.take_zero, totalSteps, Nat.add_zero]
      exact find_app_of_some (stepRowsForB_find hs)
    | succ i =>
      simp only [List.getElem?_cons_succ] at hc
      simp only [stepRowsB, List.take_succ_cons, totalSteps]
      have e : sid + (a.steps.length + totalSteps (cs.take i)) + i2 =
          sid + a.steps.length + totalSteps (cs.take i) + i2 := by omega
      rw [e]
      rw [find_app_of_none (find_none_of_all fun x hx => ?_)]
      · have e2 : jid + (i + 1) = (jid + 1) + i := by omega
        rw [e2]
        exact ih hc
      · have := (mem_stepRowsForB hx).2.1
        simp
        omega

/-- Shape of the store while the engine drives one submitted pipeline: the original
well-formed store plus the submitted pipeline row (with status pst) and the current
job and step rows of the submission. -/
def engineDB (db : DB) (ctx : Context) (pst : String) (jrows : List JobRow)
    (srows : List StepRow) : DB :=
  { db with
    pipelines := db.pipelines ++
      [{ id := db.next_pipeline_id, config := ctx.config, context := ctx,
         execution_status := pst }]
    jobs := db.jobs ++ jrows
    steps := db.steps ++ srows
    next_pipeline_id := db.next_pipeline_id + 1
    next_job_id := db.next_job_id + ctx.config.jobs.length
    next_step_id := db.next_step_id + totalSteps ctx.config.jobs }

theorem setup_engineDB (db : DB) (ctx : Context) :
    (setup_pipeline db ctx).2 =
      engineDB db ctx "Pending"
        (jobRowsB db.next_job_id db.next_pipeline_id ctx.config.jobs)
        (stepRowsB db.next_step_id db.next_job_id db.next_pipeline_id ctx.config.jobs) := by
  rw [setup_pipeline_spec]
  rfl

theorem map_ite_concat {α} (g : α → α) (q : α → Prop) [DecidablePred q]
    (X Y : List α) (r : α) (hX : ∀ x ∈ X, ¬ q x) (hY : ∀ y ∈ Y, ¬ q y) (hr : q r) :
    (X ++ r :: Y).map (fun x => if q x then g x else x) = X ++ g r :: Y := by
  rw [List.map_append, map_fix (fun x hx => if_neg (hX x hx)), List.map_cons, if_pos hr,
    map_fix (fun y hy => if_neg (hY y hy))]

theorem set_pipeline_status_engineDB {db : DB} (hwf : WF db) (ctx : Context)
    (pst : String) (jrows : List JobRow) (srows : List StepRow) (st : ExecutionStatus) :
    set_pipeline_status (engineDB db ctx pst jrows srows) db.next_pipeline_id st =
      engineDB db ctx st.toStr jrows srows := by
  simp only [set_pipeline_status, engineDB]
  rw [map_ite_concat (fun r => { r with execution_status := st.toStr })
    (fun r => r.id = db.next_pipeline_id) db.pipelines []
    { id := db.next_pipeline_id, config := ctx.config, context := ctx,
      execution_status := pst }
    (fun x hx h => by have := hwf.pipeline_ids x hx; omega) (by simp) rfl]

theorem set_job_status_engineDB {db : DB} (hwf : WF db) (ctx : Context) (pst : String)
    {jid : Nat} (hjid : db.next_job_id ≤ jid) (A B : List JobRow) (jr : JobRow)
    (hA : ∀ x ∈ A, x.id ≠ jid) (hB : ∀ x ∈ B, x.id ≠ jid) (hjr : jr.id = jid)
    (srows : List StepRow) (st : ExecutionStatus) :
    set_job_status (engineDB db ctx pst (A ++ jr :: B) srows) jid st =
      engineDB db ctx pst (A ++ { jr with status := st.toStr } :: B) srows := by
  simp only [set_job_status, engineDB]
  rw [← List.append_assoc,
    map_ite_concat (fun r => { r with status := st.toStr }) (fun r => r.id = jid)
      (db.jobs ++ A) B jr
      (fun x hx => by
        rcases List.mem_append.mp hx with hx | hx
        · have := hwf.job_ids x hx; omega
        · exact hA x hx)
      hB hjr,
    List.append_assoc]

theorem set_step_status_engineDB {db : DB} (hwf : WF db) (ctx : Context) (pst : String)
    (jrows : List JobRow) {sid : Nat} (hsid : db.next_step_id ≤ sid)
    (A B : List StepRow) (sr : StepRow)
    (hA : ∀ x ∈ A, x.id ≠ sid) (hB : ∀ x ∈ B, x.id ≠ sid) (hsr : sr.id = sid)
    (st : ExecutionStatus) :
    set_step_status (engineDB db ctx pst jrows (A ++ sr :: B)) sid st =
      engineDB db ctx pst jrows (A ++ { sr with status := st.toStr } :: B) := by
  simp only [set_step_status, engineDB]
  rw [← List.append_assoc,
    map_ite_concat (fun r => { r with status := st.toStr }) (fun r => r.id = sid)
      (db.steps ++ A) B sr
      (fun x hx => by
        rcases List.mem_append.mp hx with hx | hx
        · have := hwf.step_ids x hx; omega
        · exact hA x hx)
      hB hsr,
    List.append_assoc]

theorem set_step_log_engineDB {db : DB} (hwf : WF db) (ctx : Context) (pst : String)
    (jrows : List JobRow) {sid : Nat} (hsid : db.next_step_id ≤ sid)
    (A B : List StepRow) (sr : StepRow)
    (hA : ∀ x ∈ A, x.id ≠ sid) (hB : ∀ x ∈ B, x.id ≠ sid) (hsr : sr.id = sid)
    (log : String) :
    set_step_log (engineDB db ctx pst jrows (A ++ sr :: B)) sid log =
      engineDB db ctx pst jrows (A ++ { sr with log_data := some log } :: B) := by
  simp only [set_step_log, engineDB]
  rw [← List.append_assoc,
    map_ite_concat (fun r => { r with log_data := some log }) (fun r => r.id = sid)
      (db.steps ++ A) B sr
      (fun x hx => by
        rcases List.mem_append.mp hx with hx | hx
        · have := hwf.step_ids x hx; omega
        · exact hA x hx)
      hB hsr,
    List.append_assoc]

theorem get_pipeline_status_engineDB {db : DB} (hwf : WF db) (ctx : Context)
    {pst : String} (jrows : List JobRow) (srows : List StepRow)
    {st : ExecutionStatus} (hparse : statusFromStr pst = some st) :
    ∃ ps, get_pipeline_status (engineDB db ctx pst jrows srows) db.next_pipeline_id =
        .ok ps ∧ ps.status = st := by
  have hfp : ((engineDB db ctx pst jrows srows).pipelines.find?
      (fun r => r.id == db.next_pipeline_id)) =
      some { id := db.next_pipeline_id, config := ctx.config, context := ctx,
             execution_status := pst } := by
    unfold engineDB
    rw [find_app_of_none (find_none_of_all fun r hr => ?_)]
    · simp
    · have := hwf.pipeline_ids r hr
      simp
      omega
  refine ⟨{ id := db.next_pipeline_id, config := ctx.config, status := st,
            jobs := ((engineDB db ctx pst jrows srows).jobs.filter
              (fun r => r.pipeline_id == db.next_pipeline_id)).map (·.id),
            error := none }, ?_, rfl⟩
  simp [get_pipeline_status, hfp, hparse]

theorem get_job_status_engineDB {db : DB} (hwf : WF db) (ctx : Context) (pst : String)
    {jrows : List JobRow} {srows : List StepRow} {jid : Nat}
    (hjid : db.next_job_id ≤ jid) {jr : JobRow}
    (hfind : jrows.find? (fun r => r.id == jid) = some jr)
    {st : ExecutionStatus} (hst : statusFromStr jr.status = some st)
    {frows : List StepRow}
    (hfilter : srows.filter (fun r => r.job_id == jid) = frows)
    (hsorted : frows.Pairwise (fun a b => a.id ≤ b.id))
    {ss : List StepStatusM} (hparse : parseStepRows frows = .ok ss) :
    get_job_status (engineDB db ctx pst jrows srows) jid =
      .ok { id := jid, config := jr.name, steps := ss, status := st,
            current_step := some jr.current_step } := by
  have hjf : ((engineDB db ctx pst jrows srows).jobs.find? (fun r => r.id == jid)) =
      some jr := by
    unfold engineDB
    rw [find_app_of_none (find_none_of_all fun r hr => ?_)]
    · exact hfind
    · have := hwf.job_ids r hr
      simp
      omega
  have hsf : ((engineDB db ctx pst jrows srows).steps.filter
      (fun r => r.job_id == jid)) = frows := by
    unfold engineDB
    rw [List.filter_append, filter_none_of_all fun r hr => ?_]
    · simpa using hfilter
    · have := hwf.step_job_ids r hr
      simp
      omega
  simp [get_job_status, hjf, hsf, sortByIdAsc_of_sorted hsorted, hparse, hst]

/-- Job rows of one pipeline mid-run: the completed prefix, the current job with
status jst, and the pending rest. -/
def c3Jrows (J P : Nat) (dJobs : List JobCfg) (cj : JobCfg) (remJobs : List JobCfg)
    (jst : String) : List JobRow :=
  doneJobRowsB J P dJobs ++
    { id := J + dJobs.length, pipeline_id := P, name := cj, status := jst,
      current_step := 0 } ::
    jobRowsB (J + dJobs.length + 1) P remJobs

/-- Step rows of one pipeline while the current job runs: completed earlier jobs, the
current job's completed prefix a and pending rest b, then the later jobs' pending
rows. -/
def c3Srows (reg : Registry) (S J P : Nat) (dJobs : List JobCfg) (cj : JobCfg)
    (remJobs : List JobCfg) (a b : List StepCfg) : List StepRow :=
  doneStepRowsB reg S J P dJobs ++
    (doneStepRowsForB reg (S + totalSteps dJobs) (J + dJobs.length) P a ++
      (stepRowsForB (S + totalSteps dJobs + a.length) (J + dJobs.length) P b ++
        stepRowsB (S + totalSteps dJobs + cj.steps.length) (J + dJobs.length + 1) P
          remJobs))

/-- Step rows after the current job's step sk failed behind the completed prefix a. -/
def c3SrowsFail (reg : Registry) (S J P : Nat) (dJobs : List JobCfg) (cj : JobCfg)
    (remJobs : List JobCfg) (a : List StepCfg) (sk : StepCfg) (post : List StepCfg) :
    List StepRow :=
  doneStepRowsB reg S J P dJobs ++
    (doneStepRowsForB reg (S + totalSteps dJobs) (J + dJobs.length) P a ++
      (failedStepRow reg (S + totalSteps dJobs + a.length) (J + dJobs.length) P sk ::
        (stepRowsForB (S + totalSteps dJobs + a.length + 1) (J + dJobs.length) P post ++
          stepRowsB (S + totalSteps dJobs + cj.steps.length) (J + dJobs.length + 1) P
            remJobs)))

theorem totalSteps_append (l1 l2 : List JobCfg) :
    totalSteps (l1 ++ l2) = totalSteps l1 + totalSteps l2 := by
  induction l1 with
  | nil => simp [totalSteps]
  | cons c l1 ih => simp [totalSteps, ih]; omega

theorem doneJobRowsB_append (J P : Nat) (l1 l2 : List JobCfg) :
    doneJobRowsB J P (l1 ++ l2) =
      doneJobRowsB J P l1 ++ doneJobRowsB (J + l1.length) P l2 := by
  induction l1 generalizing J with
  | nil => simp [doneJobRowsB]
  | cons c l1 ih =>
    simp only [List.cons_append, doneJobRowsB, List.length_cons, List.append_eq]
    rw [ih]
    have e : J + 1 + l1.length = J + (l1.length + 1) := by omega
    rw [e]

theorem doneStepRowsB_append (reg : Registry) (S J P : Nat) (l1 l2 : List JobCfg) :
    doneStepRowsB reg S J P (l1 ++ l2) =
      doneStepRowsB reg S J P l1 ++
        doneStepRowsB reg (S + totalSteps l1) (J + l1.length) P l2 := by
  induction l1 generalizing S J with
  | nil => simp [doneStepRowsB, totalSteps]
  | cons c l1 ih =>
    simp only [List.cons_append, doneStepRowsB, List.length_cons, List.append_eq,
      totalSteps]
    rw [ih, List.append_assoc]
    have e1 : S + c.steps.length + totalSteps l1 = S + (c.steps.length + totalSteps l1) := by
      omega
    have e2 : J + 1 + l1.length = J + (l1.length + 1) := by omega
    rw [e1, e2]

theorem doneStepRowsForB_filter_self (reg : Registry) (sid jid pid : Nat)
    (ss : List StepCfg) :
    (doneStepRowsForB reg sid jid pid ss).filter (fun r => r.job_id == jid) =
      doneStepRowsForB reg sid jid pid ss := by
  induction ss generalizing sid with
  | nil => rfl
  | cons s ss ih => simp [doneStepRowsForB, List.filter_cons, doneStepRow, ih]

theorem execLog_of_get {reg : Registry} {s : StepCfg} {ex : ExecutorModel}
    (h : Registry.get reg s.call = some ex) : execLog reg s = (ex.run s).2 := by
  unfold execLog
  rw [h]

/-- The current job row is found among the c3 job rows. -/
theorem c3Jrows_find (J P : Nat) (dJobs : List JobCfg) (cj : JobCfg)
    (remJobs : List JobCfg) (jst : String) :
    (c3Jrows J P dJobs cj remJobs jst).find? (fun r => r.id == J + dJobs.length) =
      some { id := J + dJobs.length, pipeline_id := P, name := cj, status := jst,
             current_step := 0 } := by
  unfold c3Jrows
  rw [find_app_of_none (find_none_of_all fun x hx => ?_)]
  · simp [List.find?_cons]
  · have := (mem_doneJobRowsB hx).2.1
    simp
    omega

/-- Filtering the c3 step rows by the current job id keeps exactly its own rows. -/
theorem c3Srows_filter (reg : Registry) (S J P : Nat) (dJobs : List JobCfg)
    (cj : JobCfg) (remJobs : List JobCfg) (a b : List StepCfg) :
    (c3Srows reg S J P dJobs cj remJobs a b).filter
        (fun r => r.job_id == J + dJobs.length) =
      doneStepRowsForB reg (S + totalSteps dJobs) (J + dJobs.length) P a ++
        stepRowsForB (S + totalSteps dJobs + a.length) (J + dJobs.length) P b := by
  unfold c3Srows
  rw [List.filter_append, List.filter_append, List.filter_append]
  rw [filter_none_of_all fun x hx => ?_, doneStepRowsForB_filter_self,
    stepRowsForB_filter_self, stepRowsB_filter_small remJobs (by omega)]
  · simp
  · have := (mem_doneStepRowsB hx).2.2.2
    simp
    omega

/-- The parsed steps of the current job mid-run. -/
theorem c3Srows_parse (reg : Registry) (S J P : Nat) (dJobs : List JobCfg)
    (a b : List StepCfg) :
    parseStepRows
        (doneStepRowsForB reg (S + totalSteps dJobs) (J + dJobs.length) P a ++
          stepRowsForB (S + totalSteps dJobs + a.length) (J + dJobs.length) P b) =
      .ok (doneStepStatuses reg (S + totalSteps dJobs) a ++
        pendingStepStatuses (S + totalSteps dJobs + a.length) b) :=
  parseStepRows_append (parse_doneStepRowsForB reg _ _ _ a) (parse_stepRowsForB _ _ _ b)

/-- The current job's rows mid-run are sorted by id. -/
theorem c3SrowsFilter_pairwise (reg : Registry) (S J P : Nat) (dJobs : List JobCfg)
    (a b : List StepCfg) :
    (doneStepRowsForB reg (S + totalSteps dJobs) (J + dJobs.length) P a ++
        stepRowsForB (S + totalSteps dJobs + a.length) (J + dJobs.length) P b).Pairwise
      (fun x y => x.id ≤ y.id) := by
  rw [List.pairwise_append]
  refine ⟨doneStepRowsForB_pairwise _ _ _ _ _, stepRowsForB_pairwise _ _ _ _,
    fun x hx y hy => ?_⟩
  have h1 := (mem_doneStepRowsForB hx).2.1
  have h2 := (mem_stepRowsForB hy).1
  omega

/-- The c3 step rows with the pending list decomposed at its head, in the
A ++ r :: B shape the update lemmas need. -/
theorem c3Srows_decomp (reg : Registry) (S J P : Nat) (dJobs : List JobCfg)
    (cj : JobCfg) (remJobs : List JobCfg) (a : List StepCfg) (s : StepCfg)
    (b : List StepCfg) :
    c3Srows reg S J P dJobs cj remJobs a (s :: b) =
      (doneStepRowsB reg S J P dJobs ++
        doneStepRowsForB reg (S + totalSteps dJobs) (J + dJobs.length) P a) ++
      stepRowB (S + totalSteps dJobs + a.length) (J + dJobs.length) P s ::
        (stepRowsForB (S + totalSteps dJobs + a.length + 1) (J + dJobs.length) P b ++
          stepRowsB (S + totalSteps dJobs + cj.steps.length) (J + dJobs.length + 1) P
            remJobs) := by
  simp [c3Srows, stepRowsForB, List.append_assoc]

/-- Absorbing a freshly completed step into the done prefix. -/
theorem c3Srows_repack (reg : Registry) (S J P : Nat) (dJobs : List JobCfg)
    (cj : JobCfg) (remJobs : List JobCfg) (a : List StepCfg) (s : StepCfg)
    (b : List StepCfg) :
    (doneStepRowsB reg S J P dJobs ++
        doneStepRowsForB reg (S + totalSteps dJobs) (J + dJobs.length) P a) ++
      doneStepRow reg (S + totalSteps dJobs + a.length) (J + dJobs.length) P s ::
        (stepRowsForB (S + totalSteps dJobs + a.length + 1) (J + dJobs.length) P b ++
          stepRowsB (S + totalSteps dJobs + cj.steps.length) (J + dJobs.length + 1) P
            remJobs) =
      c3Srows reg S J P dJobs cj remJobs (a ++ [s]) b := by
  unfold c3Srows
  rw [doneStepRowsForB_append]
  simp only [doneStepRowsForB, List.append_assoc, List.length_append, List.length_cons,
    List.length_nil, List.cons_append, List.nil_append]
  have e : S + totalSteps dJobs + a.length + 1 = S + totalSteps dJobs + (a.length + 1) := by
    omega
  rw [e]

/-- store_error over the failed engine state: the pipeline row keeps Failed and the
error row is appended. -/
theorem store_error_engineDB {db : DB} (hwf : WF db) (ctx : Context)
    (jrows : List JobRow) (srows : List StepRow) (m : String) :
    store_error (engineDB db ctx "Failed" jrows srows) db.next_pipeline_id m =
      { engineDB db ctx "Failed" jrows srows with
        global_errors := db.global_errors ++
          [{ id := db.next_error_id, pipeline_id := db.next_pipeline_id,
             error_message := m }]
        next_error_id := db.next_error_id + 1 } := by
  simp only [store_error, engineDB]
  rw [map_ite_concat (fun r => { r with execution_status := ExecutionStatus.Failed.toStr })
    (fun r => r.id = db.next_pipeline_id) db.pipelines []
    { id := db.next_pipeline_id, config := ctx.config, context := ctx,
      execution_status := "Failed" }
    (fun x hx h => by have := hwf.pipeline_ids x hx; omega) (by simp) rfl]
  simp [ExecutionStatus.toStr]

/-- One successful step iteration of the engine's step loop: the step is marked
Running, executed, its log persisted, and marked Completed. -/
theorem runSteps_step_ok (reg : Registry) {db : DB} (hwf : WF db) (ctx : Context)
    (dJobs : List JobCfg) (cj : JobCfg) (remJobs : List JobCfg)
    (a : List StepCfg) (s : StepCfg) (b : List StepCfg)
    (hsteps : cj.steps = a ++ s :: b)
    (hok : execOkP reg s) :
    runSteps reg db.next_pipeline_id (db.next_job_id + dJobs.length)
      (pendingStepStatuses (db.next_step_id + totalSteps dJobs + a.length) (s :: b))
      (engineDB db ctx "Running"
        (c3Jrows db.next_job_id db.next_pipeline_id dJobs cj remJobs "Running")
        (c3Srows reg db.next_step_id db.next_job_id db.next_pipeline_id dJobs cj
          remJobs a (s :: b))) =
    runSteps reg db.next_pipeline_id (db.next_job_id + dJobs.length)
      (pendingStepStatuses (db.next_step_id + totalSteps dJobs + (a ++ [s]).length) b)
      (engineDB db ctx "Running"
        (c3Jrows db.next_job_id db.next_pipeline_id dJobs cj remJobs "Running")
        (c3Srows reg db.next_step_id db.next_job_id db.next_pipeline_id dJobs cj
          remJobs (a ++ [s]) b)) := by
  obtain ⟨ex, hex, hrunok⟩ := hok
  have hlen : cj.steps.length = a.length + 1 + b.length := by
    rw [hsteps]
    simp
    omega
  have hjs := get_job_status_engineDB hwf ctx "Running"
    (show db.next_job_id ≤ db.next_job_id + dJobs.length by omega)
    (c3Jrows_find db.next_job_id db.next_pipeline_id dJobs cj remJobs "Running")
    (show statusFromStr "Running" = some .Running from rfl)
    (c3Srows_filter reg db.next_step_id db.next_job_id db.next_pipeline_id dJobs cj
      remJobs a (s :: b))
    (c3SrowsFilter_pairwise reg db.next_step_id db.next_job_id db.next_pipeline_id
      dJobs a (s :: b))
    (c3Srows_parse reg db.next_step_id db.next_job_id db.next_pipeline_id dJobs
      a (s :: b))
  rw [show pendingStepStatuses (db.next_step_id + totalSteps dJobs + a.length) (s :: b) =
      ({ id := db.next_step_id + totalSteps dJobs + a.length, config := s,
         status := .Pending, output := none } : StepStatusM) ::
        pendingStepStatuses (db.next_step_id + totalSteps dJobs + a.length + 1) b
      from rfl]
  simp only [runSteps, hjs]
  rw [if_neg (show ¬ (ExecutionStatus.Running = ExecutionStatus.Cancelled) by decide)]
  rw [c3Srows_decomp]
  rw [set_step_status_engineDB hwf ctx "Running" _
    (show db.next_step_id ≤ db.next_step_id + totalSteps dJobs + a.length by omega)
    _ _ _
    (fun x hx => by
      rcases List.mem_append.mp hx with hx | hx
      · have := (mem_doneStepRowsB hx).2.1
        omega
      · have := (mem_doneStepRowsForB hx).2.1
        omega)
    (fun x hx => by
      rcases List.mem_append.mp hx with hx | hx
      · have := (mem_stepRowsForB hx).1
        omega
      · have := (mem_stepRowsB hx).1
        omega)
    rfl ExecutionStatus.Running]
  simp only [execute_step]
  rw [hex]
  simp only [hrunok]
  rw [set_step_log_engineDB hwf ctx "Running" _
    (show db.next_step_id ≤ db.next_step_id + totalSteps dJobs + a.length by omega)
    _ _ _
    (fun x hx => by
      rcases List.mem_append.mp hx with hx | hx
      · have := (mem_doneStepRowsB hx).2.1
        omega
      · have := (mem_doneStepRowsForB hx).2.1
        omega)
    (fun x hx => by
      rcases List.mem_append.mp hx with hx | hx
      · have := (mem_stepRowsForB hx).1
        omega
      · have := (mem_stepRowsB hx).1
        omega)
    rfl ((ex.run s).2)]
  rw [set_step_status_engineDB hwf ctx "Running" _
    (show db.next_step_id ≤ db.next_step_id + totalSteps dJobs + a.length by omega)
    _ _ _
    (fun x hx => by
      rcases List.mem_append.mp hx with hx | hx
      · have := (mem_doneStepRowsB hx).2.1
        omega
      · have := (mem_doneStepRowsForB hx).2.1
        omega)
    (fun x hx => by
      rcases List.mem_append.mp hx with hx | hx
      · have := (mem_stepRowsForB hx).1
        omega
      · have := (mem_stepRowsB hx).1
        omega)
    rfl ExecutionStatus.Completed]
  rw [← c3Srows_repack]
  have hrow : ({ { { stepRowB (db.next_step_id + totalSteps dJobs + a.length)
        (db.next_job_id + dJobs.length) db.next_pipeline_id s with
          status := ExecutionStatus.Running.toStr } with
        log_data := some ((ex.run s).2) } with
      status := ExecutionStatus.Completed.toStr } : StepRow) =
      doneStepRow reg (db.next_step_id + totalSteps dJobs + a.length)
        (db.next_job_id + dJobs.length) db.next_pipeline_id s := by
    simp [stepRowB, doneStepRow, ExecutionStatus.toStr, execLog_of_get hex]
  rw [hrow]
  simp only [List.length_append, List.length_cons, List.length_nil]
  have e : db.next_step_id + totalSteps dJobs + a.length + 1 =
      db.next_step_id + totalSteps dJobs + (a.length + 1) := by omega
  rw [e]

/-- The engine's step loop completes every remaining step when all executors
succeed. -/
theorem runSteps_walk_ok (reg : Registry) {db : DB} (hwf : WF db) (ctx : Context)
    (dJobs : List JobCfg) (cj : JobCfg) (remJobs : List JobCfg)
    (b a : List StepCfg) (hsteps : cj.steps = a ++ b)
    (hbok : ∀ s ∈ b, execOkP reg s) :
    runSteps reg db.next_pipeline_id (db.next_job_id + dJobs.length)
      (pendingStepStatuses (db.next_step_id + totalSteps dJobs + a.length) b)
      (engineDB db ctx "Running"
        (c3Jrows db.next_job_id db.next_pipeline_id dJobs cj remJobs "Running")
        (c3Srows reg db.next_step_id db.next_job_id db.next_pipeline_id dJobs cj
          remJobs a b)) =
    (engineDB db ctx "Running"
      (c3Jrows db.next_job_id db.next_pipeline_id dJobs cj remJobs "Running")
      (c3Srows reg db.next_step_id db.next_job_id db.next_pipeline_id dJobs cj
        remJobs cj.steps []), .finished) := by
  induction b generalizing a with
  | nil =>
    rw [hsteps]
    simp only [pendingStepStatuses, runSteps, List.append_nil]
  | cons s b ih =>
    rw [runSteps_step_ok reg hwf ctx dJobs cj remJobs a s b hsteps (hbok s (by simp))]
    exact ih (a ++ [s]) (by rw [hsteps]; simp) (fun t ht => hbok t (by simp [ht]))

/-- The engine's step loop runs the remaining successful steps and then fails on sk:
sk is marked Failed (with its log persisted), the job and the pipeline are marked
Failed, and the loop returns the executor's error without touching later steps. -/
theorem runSteps_walk_fail (reg : Registry) {db : DB} (hwf : WF db) (ctx : Context)
    (dJobs : List JobCfg) (cj : JobCfg) (remJobs : List JobCfg)
    (b a post : List StepCfg) (sk : StepCfg) (exm : ExecutorModel) (m : String)
    (hsteps : cj.steps = a ++ (b ++ sk :: post))
    (hbok : ∀ s ∈ b, execOkP reg s)
    (hex : Registry.get reg sk.call = some exm)
    (hrun : (exm.run sk).1 = .error m) :
    runSteps reg db.next_pipeline_id (db.next_job_id + dJobs.length)
      (pendingStepStatuses (db.next_step_id + totalSteps dJobs + a.length)
        (b ++ sk :: post))
      (engineDB db ctx "Running"
        (c3Jrows db.next_job_id db.next_pipeline_id dJobs cj remJobs "Running")
        (c3Srows reg db.next_step_id db.next_job_id db.next_pipeline_id dJobs cj
          remJobs a (b ++ sk :: post))) =
    (engineDB db ctx "Failed"
      (c3Jrows db.next_job_id db.next_pipeline_id dJobs cj remJobs "Failed")
      (c3SrowsFail reg db.next_step_id db.next_job_id db.next_pipeline_id dJobs cj
        remJobs (a ++ b) sk post), .stepFailed m) := by
  induction b generalizing a with
  | nil =>
    simp only [List.nil_append, List.append_nil]
    have hlen : cj.steps.length = a.length + 1 + post.length := by
      rw [hsteps]
      simp
      omega
    have hjs := get_job_status_engineDB hwf ctx "Running"
      (show db.next_job_id ≤ db.next_job_id + dJobs.length by omega)
      (c3Jrows_find db.next_job_id db.next_pipeline_id dJobs cj remJobs "Running")
      (show statusFromStr "Running" = some .Running from rfl)
      (c3Srows_filter reg db.next_step_id db.next_job_id db.next_pipeline_id dJobs cj
        remJobs a (sk :: post))
      (c3SrowsFilter_pairwise reg db.next_step_id db.next_job_id db.next_pipeline_id
        dJobs a (sk :: post))
      (c3Srows_parse reg db.next_step_id db.next_job_id db.next_pipeline_id dJobs
        a (sk :: post))
    rw [show pendingStepStatuses (db.next_step_id + totalSteps dJobs + a.length)
        (sk :: post) =
        ({ id := db.next_step_id + totalSteps dJobs + a.length, config := sk,
           status := .Pending, output := none } : StepStatusM) ::
          pendingStepStatuses (db.next_step_id + totalSteps dJobs + a.length + 1) post
        from rfl]
    simp only [runSteps, hjs]
    rw [if_neg (show ¬ (ExecutionStatus.Running = ExecutionStatus.Cancelled) by decide)]
    rw [c3Srows_decomp]
    rw [set_step_status_engineDB hwf ctx "Running" _
      (show db.next_step_id ≤ db.next_step_id + totalSteps dJobs + a.length by omega)
      _ _ _
      (fun x hx => by
        rcases List.mem_append.mp hx with hx | hx
        · have := (mem_doneStepRowsB hx).2.1
          omega
        · have := (mem_doneStepRowsForB hx).2.1
          omega)
      (fun x hx => by
        rcases List.mem_append.mp hx with hx | hx
        · have := (mem_stepRowsForB hx).1
          omega
        · have := (mem_stepRowsB hx).1
          omega)
      rfl ExecutionStatus.Running]
    simp only [execute_step]
    rw [hex]
    simp only [hrun]
    rw [set_step_log_engineDB hwf ctx "Running" _
      (show db.next_step_id ≤ db.next_step_id + totalSteps dJobs + a.length by omega)
      _ _ _
      (fun x hx => by
        rcases List.mem_append.mp hx with hx | hx
        · have := (mem_doneStepRowsB hx).2.1
          omega
        · have := (mem_doneStepRowsForB hx).2.1
          omega)
      (fun x hx => by
        rcases List.mem_append.mp hx with hx | hx
        · have := (mem_stepRowsForB hx).1
          omega
        · have := (mem_stepRowsB hx).1
          omega)
      rfl ((exm.run sk).2)]
    rw [set_step_status_engineDB hwf ctx "Running" _
      (show db.next_step_id ≤ db.next_step_id + totalSteps dJobs + a.length by omega)
      _ _ _
      (fun x hx => by
        rcases List.mem_append.mp hx with hx | hx
        · have := (mem_doneStepRowsB hx).2.1
          omega
        · have := (mem_doneStepRowsForB hx).2.1
          omega)
      (fun x hx => by
        rcases List.mem_append.mp hx with hx | hx
        · have := (mem_stepRowsForB hx).1
          omega
        · have := (mem_stepRowsB hx).1
          omega)
      rfl ExecutionStatus.Failed]
    simp only [c3Jrows]
    rw [set_job_status_engineDB hwf ctx "Running"
      (show db.next_job_id ≤ db.next_job_id + dJobs.length by omega)
      _ _ _
      (fun x hx => by
        have := (mem_doneJobRowsB hx).2.1
        omega)
      (fun x hx => by
        have := (mem_jobRowsB hx).1
        omega)
      rfl _ ExecutionStatus.Failed]
    rw [set_pipeline_status_engineDB hwf ctx "Running" _ _ ExecutionStatus.Failed]
    have hrow : ({ { { stepRowB (db.next_step_id + totalSteps dJobs + a.length)
          (db.next_job_id + dJobs.length) db.next_pipeline_id sk with
            status := ExecutionStatus.Running.toStr } with
          log_data := some ((exm.run sk).2) } with
        status := ExecutionStatus.Failed.toStr } : StepRow) =
        failedStepRow reg (db.next_step_id + totalSteps dJobs + a.length)
          (db.next_job_id + dJobs.length) db.next_pipeline_id sk := by
      simp [stepRowB, failedStepRow, ExecutionStatus.toStr, execLog_of_get hex]
    rw [hrow]
    simp only [ExecutionStatus.toStr, c3SrowsFail, List.append_nil]
    simp [Prod.mk.injEq, List.append_assoc]
  | cons s b ih =>
    simp only [List.cons_append]
    rw [show (s :: (b ++ sk :: post)) = s :: (b ++ sk :: post) from rfl]
    rw [runSteps_step_ok reg hwf ctx dJobs cj remJobs a s (b ++ sk :: post)
      (by rw [hsteps]; simp) (hbok s (by simp))]
    have := ih (a ++ [s]) (by rw [hsteps]; simp) (fun t ht => hbok t (by simp [ht]))
    rw [this]
    simp [List.append_assoc]

theorem c3Jrows_entry (J P : Nat) (dJobs : List JobCfg) (cj : JobCfg)
    (remJobs : List JobCfg) :
    doneJobRowsB J P dJobs ++ jobRowsB (J + dJobs.length) P (cj :: remJobs) =
      c3Jrows J P dJobs cj remJobs "Pending" := by
  simp [c3Jrows, jobRowsB, jobRowB]

theorem c3Srows_entry (reg : Registry) (S J P : Nat) (dJobs : List JobCfg) (cj : JobCfg)
    (remJobs : List JobCfg) :
    doneStepRowsB reg S J P dJobs ++
        stepRowsB (S + totalSteps dJobs) (J + dJobs.length) P (cj :: remJobs) =
      c3Srows reg S J P dJobs cj remJobs [] cj.steps := by
  simp [c3Srows, stepRowsB, doneStepRowsForB]

theorem jrows_fold_running (J P : Nat) (dJobs : List JobCfg) (cj : JobCfg)
    (remJobs : List JobCfg) :
    doneJobRowsB J P dJobs ++
        { ({ id := J + dJobs.length, pipeline_id := P, name := cj, status := "Pending",
             current_step := 0 } : JobRow) with
           status := ExecutionStatus.Running.toStr } ::
        jobRowsB (J + dJobs.length + 1) P remJobs =
      c3Jrows J P dJobs cj remJobs "Running" := by
  simp [c3Jrows, ExecutionStatus.toStr]

theorem jrows_fold_completed (J P : Nat) (dJobs : List JobCfg) (cj : JobCfg)
    (remJobs : List JobCfg) :
    doneJobRowsB J P dJobs ++
        { ({ id := J + dJobs.length, pipeline_id := P, name := cj, status := "Running",
             current_step := 0 } : JobRow) with
           status := ExecutionStatus.Completed.toStr } ::
        jobRowsB (J + dJobs.length + 1) P remJobs =
      doneJobRowsB J P (dJobs ++ [cj]) ++
        jobRowsB (J + (dJobs ++ [cj]).length) P remJobs := by
  rw [doneJobRowsB_append]
  have e : J + (dJobs ++ [cj]).length = J + dJobs.length + 1 := by
    simp only [List.length_append, List.length_cons, List.length_nil]
    omega
  rw [e]
  simp [doneJobRowsB, doneJobRow, ExecutionStatus.toStr, List.append_assoc]

theorem srows_fold_completed (reg : Registry) (S J P : Nat) (dJobs : List JobCfg)
    (cj : JobCfg) (remJobs : List JobCfg) :
    c3Srows reg S J P dJobs cj remJobs cj.steps [] =
      doneStepRowsB reg S J P (dJobs ++ [cj]) ++
        stepRowsB (S + totalSteps (dJobs ++ [cj])) (J + (dJobs ++ [cj]).length) P
          remJobs := by
  rw [doneStepRowsB_append]
  have e1 : S + totalSteps (dJobs ++ [cj]) = S + totalSteps dJobs + cj.steps.length := by
    rw [totalSteps_append]
    simp [totalSteps]
    omega
  have e2 : J + (dJobs ++ [cj]).length = J + dJobs.length + 1 := by
    simp only [List.length_append, List.length_cons, List.length_nil]
    omega
  rw [e1, e2]
  simp [c3Srows, doneStepRowsB, stepRowsForB, totalSteps, List.append_assoc]

/-- One failing job iteration: the engine snapshots the job, marks it Running, runs its
steps until sk fails, and propagates the step failure. -/
theorem runJob_fail (reg : Registry) {db : DB} (hwf : WF db) (ctx : Context)
    (dJobs : List JobCfg) (cj : JobCfg) (remJobs : List JobCfg)
    (pre post : List StepCfg) (sk : StepCfg) (exm : ExecutorModel) (m : String)
    (hsteps : cj.steps = pre ++ sk :: post)
    (hpreok : ∀ s ∈ pre, execOkP reg s)
    (hex : Registry.get reg sk.call = some exm)
    (hrun : (exm.run sk).1 = .error m) :
    runJob reg db.next_pipeline_id (db.next_job_id + dJobs.length)
      (engineDB db ctx "Running"
        (doneJobRowsB db.next_job_id db.next_pipeline_id dJobs ++
          jobRowsB (db.next_job_id + dJobs.length) db.next_pipeline_id (cj :: remJobs))
        (doneStepRowsB reg db.next_step_id db.next_job_id db.next_pipeline_id dJobs ++
          stepRowsB (db.next_step_id + totalSteps dJobs)
            (db.next_job_id + dJobs.length) db.next_pipeline_id (cj :: remJobs))) =
    (engineDB db ctx "Failed"
      (c3Jrows db.next_job_id db.next_pipeline_id dJobs cj remJobs "Failed")
      (c3SrowsFail reg db.next_step_id db.next_job_id db.next_pipeline_id dJobs cj
        remJobs pre sk post), .stepFailed m) := by
  rw [c3Jrows_entry, c3Srows_entry]
  have hjs0 := get_job_status_engineDB hwf ctx "Running"
    (show db.next_job_id ≤ db.next_job_id + dJobs.length by omega)
    (c3Jrows_find db.next_job_id db.next_pipeline_id dJobs cj remJobs "Pending")
    (show statusFromStr "Pending" = some .Pending from rfl)
    (c3Srows_filter reg db.next_step_id db.next_job_id db.next_pipeline_id dJobs cj
      remJobs [] cj.steps)
    (c3SrowsFilter_pairwise reg db.next_step_id db.next_job_id db.next_pipeline_id
      dJobs [] cj.steps)
    (c3Srows_parse reg db.next_step_id db.next_job_id db.next_pipeline_id dJobs
      [] cj.steps)
  simp only [runJob, hjs0]
  simp only [c3Jrows]
  rw [set_job_status_engineDB hwf ctx "Running"
    (show db.next_job_id ≤ db.next_job_id + dJobs.length by omega)
    _ _ _
    (fun x hx => by
      have := (mem_doneJobRowsB hx).2.1
      omega)
    (fun x hx => by
      have := (mem_jobRowsB hx).1
      omega)
    rfl _ ExecutionStatus.Running]
  rw [jrows_fold_running]
  simp only [doneStepStatuses, List.nil_append, List.length_nil, Nat.add_zero]
  have hw := runSteps_walk_fail reg hwf ctx dJobs cj remJobs pre [] post sk exm m
    (by simpa using hsteps) hpreok hex hrun
  simp only [List.length_nil, Nat.add_zero, List.nil_append] at hw
  rw [hsteps, hw]
  simp [c3Jrows]

/-- One successful job iteration: every step of cj succeeds, the job ends Completed,
and the completed rows are absorbed into the done prefix. -/
theorem runJob_ok (reg : Registry) {db : DB} (hwf : WF db) (ctx : Context)
    (dJobs : List JobCfg) (cj : JobCfg) (remJobs : List JobCfg)
    (hok : ∀ s ∈ cj.steps, execOkP reg s) :
    runJob reg db.next_pipeline_id (db.next_job_id + dJobs.length)
      (engineDB db ctx "Running"
        (doneJobRowsB db.next_job_id db.next_pipeline_id dJobs ++
          jobRowsB (db.next_job_id + dJobs.length) db.next_pipeline_id (cj :: remJobs))
        (doneStepRowsB reg db.next_step_id db.next_job_id db.next_pipeline_id dJobs ++
          stepRowsB (db.next_step_id + totalSteps dJobs)
            (db.next_job_id + dJobs.length) db.next_pipeline_id (cj :: remJobs))) =
    (engineDB db ctx "Running"
      (doneJobRowsB db.next_job_id db.next_pipeline_id (dJobs ++ [cj]) ++
        jobRowsB (db.next_job_id + (dJobs ++ [cj]).length) db.next_pipeline_id remJobs)
      (doneStepRowsB reg db.next_step_id db.next_job_id db.next_pipeline_id
          (dJobs ++ [cj]) ++
        stepRowsB (db.next_step_id + totalSteps (dJobs ++ [cj]))
          (db.next_job_id + (dJobs ++ [cj]).length) db.next_pipeline_id remJobs),
      .jobDone) := by
  rw [c3Jrows_entry, c3Srows_entry]
  have hjs0 := get_job_status_engineDB hwf ctx "Running"
    (show db.next_job_id ≤ db.next_job_id + dJobs.length by omega)
    (c3Jrows_find db.next_job_id db.next_pipeline_id dJobs cj remJobs "Pending")
    (show statusFromStr "Pending" = some .Pending from rfl)
    (c3Srows_filter reg db.next_step_id db.next_job_id db.next_pipeline_id dJobs cj
      remJobs [] cj.steps)
    (c3SrowsFilter_pairwise reg db.next_step_id db.next_job_id db.next_pipeline_id
      dJobs [] cj.steps)
    (c3Srows_parse reg db.next_step_id db.next_job_id db.next_pipeline_id dJobs
      [] cj.steps)
  simp only [runJob, hjs0]
  simp only [c3Jrows]
  rw [set_job_status_engineDB hwf ctx "Running"
    (show db.next_job_id ≤ db.next_job_id + dJobs.length by omega)
    _ _ _
    (fun x hx => by
      have := (mem_doneJobRowsB hx).2.1
      omega)
    (fun x hx => by
      have := (mem_jobRowsB hx).1
      omega)
    rfl _ ExecutionStatus.Running]
  rw [jrows_fold_running]
  simp only [doneStepStatuses, List.nil_append, List.length_nil, Nat.add_zero]
  have hw := runSteps_walk_ok reg hwf ctx dJobs cj remJobs cj.steps [] (by simp) hok
  simp only [List.length_nil, Nat.add_zero, List.nil_append] at hw
  rw [hw]
  have hjs1 := get_job_status_engineDB hwf ctx "Running"
    (show db.next_job_id ≤ db.next_job_id + dJobs.length by omega)
    (c3Jrows_find db.next_job_id db.next_pipeline_id dJobs cj remJobs "Running")
    (show statusFromStr "Running" = some .Running from rfl)
    (c3Srows_filter reg db.next_step_id db.next_job_id db.next_pipeline_id dJobs cj
      remJobs cj.steps [])
    (c3SrowsFilter_pairwise reg db.next_step_id db.next_job_id db.next_pipeline_id
      dJobs cj.steps [])
    (c3Srows_parse reg db.next_step_id db.next_job_id db.next_pipeline_id dJobs
      cj.steps [])
  simp only [hjs1]
  rw [if_pos (show ¬ (ExecutionStatus.Running = ExecutionStatus.Cancelled) by decide)]
  simp only [c3Jrows]
  rw [set_job_status_engineDB hwf ctx "Running"
    (show db.next_job_id ≤ db.next_job_id + dJobs.length by omega)
    _ _ _
    (fun x hx => by
      have := (mem_doneJobRowsB hx).2.1
      omega)
    (fun x hx => by
      have := (mem_jobRowsB hx).1
      omega)
    rfl _ ExecutionStatus.Completed]
  rw [jrows_fold_completed, srows_fold_completed]

/-- The engine's job loop completes every job before the failing one, then fails
inside cj on step sk and propagates the error, leaving the remaining jobs and their
steps untouched (Pending). -/
theorem runJobs_walk_fail (reg : Registry) {db : DB} (hwf : WF db) (ctx : Context)
    (cj : JobCfg) (remJobs : List JobCfg) (pre post : List StepCfg) (sk : StepCfg)
    (exm : ExecutorModel) (m : String)
    (hsteps : cj.steps = pre ++ sk :: post)
    (hpreok : ∀ s ∈ pre, execOkP reg s)
    (hex : Registry.get reg sk.call = some exm)
    (hrun : (exm.run sk).1 = .error m)
    (mid : List JobCfg) (hmidok : ∀ c ∈ mid, ∀ s ∈ c.steps, execOkP reg s)
    (done : List JobCfg) :
    runJobs reg db.next_pipeline_id
      (idsFrom (db.next_job_id + done.length) (mid ++ cj :: remJobs).length)
      (engineDB db ctx "Running"
        (doneJobRowsB db.next_job_id db.next_pipeline_id done ++
          jobRowsB (db.next_job_id + done.length) db.next_pipeline_id
            (mid ++ cj :: remJobs))
        (doneStepRowsB reg db.next_step_id db.next_job_id db.next_pipeline_id done ++
          stepRowsB (db.next_step_id + totalSteps done) (db.next_job_id + done.length)
            db.next_pipeline_id (mid ++ cj :: remJobs))) =
    (engineDB db ctx "Failed"
      (c3Jrows db.next_job_id db.next_pipeline_id (done ++ mid) cj remJobs "Failed")
      (c3SrowsFail reg db.next_step_id db.next_job_id db.next_pipeline_id (done ++ mid)
        cj remJobs pre sk post), .stepFailed m) := by
  induction mid generalizing done with
  | nil =>
    simp only [List.nil_append, List.length_cons, idsFrom, runJobs]
    obtain ⟨ps, hok, hst⟩ := get_pipeline_status_engineDB hwf ctx
      (doneJobRowsB db.next_job_id db.next_pipeline_id done ++
        jobRowsB (db.next_job_id + done.length) db.next_pipeline_id (cj :: remJobs))
      (doneStepRowsB reg db.next_step_id db.next_job_id db.next_pipeline_id done ++
        stepRowsB (db.next_step_id + totalSteps done) (db.next_job_id + done.length)
          db.next_pipeline_id (cj :: remJobs))
      (show statusFromStr "Running" = some .Running from rfl)
    simp only [hok]
    rw [if_neg (by rw [hst]; decide)]
    rw [runJob_fail reg hwf ctx done cj remJobs pre post sk exm m hsteps hpreok hex
      hrun]
    simp
  | cons c mid ih =>
    simp only [List.cons_append, List.length_cons, idsFrom, runJobs]
    obtain ⟨ps, hok, hst⟩ := get_pipeline_status_engineDB hwf ctx
      (doneJobRowsB db.next_job_id db.next_pipeline_id done ++
        jobRowsB (db.next_job_id + done.length) db.next_pipeline_id
          (c :: (mid ++ cj :: remJobs)))
      (doneStepRowsB reg db.next_step_id db.next_job_id db.next_pipeline_id done ++
        stepRowsB (db.next_step_id + totalSteps done) (db.next_job_id + done.length)
          db.next_pipeline_id (c :: (mid ++ cj :: remJobs)))
      (show statusFromStr "Running" = some .Running from rfl)
    simp only [hok]
    rw [if_neg (by rw [hst]; decide)]
    rw [runJob_ok reg hwf ctx done c (mid ++ cj :: remJobs) (hmidok c (by simp))]
    have e : db.next_job_id + done.length + 1 =
        db.next_job_id + (done ++ [c]).length := by
      simp only [List.length_append, List.length_cons, List.length_nil]
      omega
    rw [e]
    have step := ih (fun c2 hc2 => hmidok c2 (by simp [hc2])) (done ++ [c])
    exact step.trans (by simp [List.append_assoc])

/-- Claim C3: when a step's executor returns failure (the first failure, behind
successful jobs dJobs and successful steps pre), the Engine writes that step Failed,
its job Failed and the pipeline Failed, appends a global-error row carrying the error
message, and stops: the later steps of the failing job and every subsequent job and
its steps stay Pending. -/
theorem step_failure_semantics (reg : Registry) (db : DB) (hwf : WF db) (ctx : Context)
    (dJobs : List JobCfg) (cj : JobCfg) (remJobs : List JobCfg)
    (pre post : List StepCfg) (sk : StepCfg) (exm : ExecutorModel) (m : String)
    (hcfg : ctx.config.jobs = dJobs ++ cj :: remJobs)
    (hsteps : cj.steps = pre ++ sk :: post)
    (hdok : ∀ c ∈ dJobs, ∀ s ∈ c.steps, execOkP reg s)
    (hpreok : ∀ s ∈ pre, execOkP reg s)
    (hex : Registry.get reg sk.call = some exm)
    (hrun : (exm.run sk).1 = .error m) :
    pipelineStatusOf (execute_blocking reg (setup_pipeline db ctx).1
        (setup_pipeline db ctx).2) db.next_pipeline_id = some "Failed" ∧
    jobStatusOf (execute_blocking reg (setup_pipeline db ctx).1
        (setup_pipeline db ctx).2) (db.next_job_id + dJobs.length) = some "Failed" ∧
    stepStatusOf (execute_blocking reg (setup_pipeline db ctx).1
        (setup_pipeline db ctx).2)
        (db.next_step_id + totalSteps dJobs + pre.length) = some "Failed" ∧
    ({ id := db.next_error_id, pipeline_id := db.next_pipeline_id,
       error_message := m } : ErrorRow) ∈
      (execute_blocking reg (setup_pipeline db ctx).1
        (setup_pipeline db ctx).2).global_errors ∧
    (∀ (i : Nat) (s : StepCfg), post[i]? = some s →
      stepStatusOf (execute_blocking reg (setup_pipeline db ctx).1
          (setup_pipeline db ctx).2)
          (db.next_step_id + totalSteps dJobs + pre.length + 1 + i) = some "Pending") ∧
    (∀ (i : Nat) (c : JobCfg), remJobs[i]? = some c →
      jobStatusOf (execute_blocking reg (setup_pipeline db ctx).1
          (setup_pipeline db ctx).2)
          (db.next_job_id + dJobs.length + 1 + i) = some "Pending") ∧
    (∀ (i i2 : Nat) (c : JobCfg) (s : StepCfg), remJobs[i]? = some c →
      c.steps[i2]? = some s →
      stepStatusOf (execute_blocking reg (setup_pipeline db ctx).1
          (setup_pipeline db ctx).2)
          (db.next_step_id + totalSteps dJobs + cj.steps.length +
            totalSteps (remJobs.take i) + i2) = some "Pending") := by
  have hlen : cj.steps.length = pre.length + 1 + post.length := by
    rw [hsteps]
    simp
    omega
  have hfinal : execute_blocking reg (setup_pipeline db ctx).1
      (setup_pipeline db ctx).2 =
      { engineDB db ctx "Failed"
          (c3Jrows db.next_job_id db.next_pipeline_id dJobs cj remJobs "Failed")
          (c3SrowsFail reg db.next_step_id db.next_job_id db.next_pipeline_id dJobs cj
            remJobs pre sk post) with
        global_errors := db.global_errors ++
          [{ id := db.next_error_id, pipeline_id := db.next_pipeline_id,
             error_message := m }]
        next_error_id := db.next_error_id + 1 } := by
    have hid : (setup_pipeline db ctx).1.id = db.next_pipeline_id := by
      rw [setup_pipeline_spec]
    have hjobs : (setup_pipeline db ctx).1.jobs =
        idsFrom db.next_job_id ctx.config.jobs.length := by
      rw [setup_pipeline_spec]
    unfold execute_blocking
    rw [hid, hjobs, setup_engineDB]
    rw [set_pipeline_status_engineDB hwf ctx "Pending" _ _ ExecutionStatus.Running]
    rw [show ExecutionStatus.Running.toStr = "Running" from rfl]
    simp only [engineTail]
    have hw := runJobs_walk_fail reg hwf ctx cj remJobs pre post sk exm m hsteps
      hpreok hex hrun dJobs hdok []
    simp only [List.length_nil, Nat.add_zero, doneJobRowsB, doneStepRowsB,
      List.nil_append, totalSteps] at hw
    rw [hcfg]
    rw [hw]
    exact store_error_engineDB hwf ctx _ _ m
  rw [hfinal]
  have hpre_lt : pre.length < cj.steps.length := by omega
  refine ⟨?_, ?_, ?_, ?_, ?_, ?_, ?_⟩
  · unfold pipelineStatusOf
    simp only [engineDB]
    rw [find_app_of_none (find_none_of_all fun r hr => ?_)]
    · simp
    · have := hwf.pipeline_ids r hr
      simp
      omega
  · unfold jobStatusOf
    simp only [engineDB]
    rw [find_app_of_none (find_none_of_all fun r hr => ?_)]
    · rw [c3Jrows_find]
      rfl
    · have := hwf.job_ids r hr
      simp
      omega
  · unfold stepStatusOf
    simp only [engineDB, c3SrowsFail]
    rw [find_app_of_none (find_none_of_all fun r hr => ?_)]
    · rw [find_app_of_none (find_none_of_all fun r hr => ?_)]
      · rw [find_app_of_none (find_none_of_all fun r hr => ?_)]
        · simp [failedStepRow]
        · have := (mem_doneStepRowsForB hr).2.1
          simp
          omega
      · have := (mem_doneStepRowsB hr).2.1
        simp
        omega
    · have := hwf.step_ids r hr
      simp
      omega
  · simp [engineDB]
  · intro i s hs
    have hi : i < post.length := by
      rcases List.getElem?_eq_some.mp hs with ⟨h1, _⟩
      exact h1
    unfold stepStatusOf
    simp only [engineDB, c3SrowsFail]
    rw [find_app_of_none (find_none_of_all fun r hr => ?_)]
    · rw [find_app_of_none (find_none_of_all fun r hr => ?_)]
      · rw [find_app_of_none (find_none_of_all fun r hr => ?_)]
        · rw [List.find?_cons]
          rw [show (((failedStepRow reg
              (db.next_step_id + totalSteps dJobs + pre.length)
              (db.next_job_id + dJobs.length) db.next_pipeline_id sk).id ==
              db.next_step_id + totalSteps dJobs + pre.length + 1 + i)) = false from by
            simp [failedStepRow]
            omega]
          have e : db.next_step_id + totalSteps dJobs + pre.length + 1 + i =
              (db.next_step_id + totalSteps dJobs + pre.length + 1) + i := by omega
          rw [e, find_app_of_some (stepRowsForB_find hs)]
          simp [stepRowB]
        · have := (mem_doneStepRowsForB hr).2.1
          simp
          omega
      · have := (mem_doneStepRowsB hr).2.1
        simp
        omega
    · have := hwf.step_ids r hr
      simp
      omega
  · intro i c hc
    unfold jobStatusOf
    simp only [engineDB, c3Jrows]
    rw [find_app_of_none (find_none_of_all fun r hr => ?_)]
    · rw [find_app_of_none (find_none_of_all fun r hr => ?_)]
      · rw [List.find?_cons_of_neg _ (by simp; omega)]
        have e : db.next_job_id + dJobs.length + 1 + i =
            (db.next_job_id + dJobs.length + 1) + i := by omega
        rw [e, jobRowsB_find hc]
        simp [jobRowB]
      · have := (mem_doneJobRowsB hr).2.1
        simp
        omega
    · have := hwf.job_ids r hr
      simp
      omega
  · intro i i2 c s hc hs
    unfold stepStatusOf
    simp only [engineDB, c3SrowsFail]
    rw [find_app_of_none (find_none_of_all fun r hr => ?_)]
    · rw [find_app_of_none (find_none_of_all fun r hr => ?_)]
      · rw [find_app_of_none (find_none_of_all fun r hr => ?_)]
        · rw [List.find?_cons]
          rw [show (((failedStepRow reg
              (db.next_step_id + totalSteps dJobs + pre.length)
              (db.next_job_id + dJobs.length) db.next_pipeline_id sk).id ==
              db.next_step_id + totalSteps dJobs + cj.steps.length +
                totalSteps (remJobs.take i) + i2)) = false from by
            simp [failedStepRow]
            omega]
          rw [find_app_of_none (find_none_of_all fun r hr => ?_)]
          · rw [stepRowsB_find_at hc hs]
            simp [stepRowB]
          · have := (mem_stepRowsForB hr).2.1
            simp
            omega
        · have := (mem_doneStepRowsForB hr).2.1
          simp
          omega
      · have := (mem_doneStepRowsB hr).2.1
        simp
        omega
    · have := hwf.step_ids r hr
      simp
      omega

/-- A hello step with its name argument present (used as the step before the failure). -/
def b1F : StepCfg := { name := "b1", call := "hello", args := [("name", "y")], io := [] }

/-- A hello step missing its name argument: its executor fails. -/
def badF : StepCfg := { name := "bad", call := "hello", args := [], io := [] }

/-- A hello step after the failing one: never executed. -/
def b3F : StepCfg := { name := "b3", call := "hello", args := [("name", "z")], io := [] }

/-- A one-step job that succeeds, scheduled before the failing job. -/
def jobAF : JobCfg :=
  { name := "jobA", steps := [{ name := "a1", call := "hello", args := [("name", "x")], io := [] }] }

/-- The failing job: its second step's executor returns an error. -/
def jobBF : JobCfg := { name := "jobB", steps := [b1F, badF, b3F] }

/-- A job after the failing one: never started. -/
def jobCF : JobCfg :=
  { name := "jobC", steps := [{ name := "c1", call := "hello", args := [("name", "w")], io := [] }] }

/-- Submission whose second job fails at its second step. -/
def ctxF : Context :=
  { config := { projects := [], jobs := [jobAF, jobBF, jobCF] }, files := [] }

/-- Concrete run of step_failure_semantics on a fresh store: jobA (job 1) succeeds,
jobB (job 2) fails at step 3 (hello without a name argument), step 4 and jobC (job 3,
step 5) stay Pending. -/
theorem step_failure_semantics_witness :
    pipelineStatusOf (execute_blocking regW (setup_pipeline emptyDB ctxF).1
        (setup_pipeline emptyDB ctxF).2) 1 = some "Failed" ∧
    jobStatusOf (execute_blocking regW (setup_pipeline emptyDB ctxF).1
        (setup_pipeline emptyDB ctxF).2) 2 = some "Failed" ∧
    stepStatusOf (execute_blocking regW (setup_pipeline emptyDB ctxF).1
        (setup_pipeline emptyDB ctxF).2) 3 = some "Failed" ∧
    stepStatusOf (execute_blocking regW (setup_pipeline emptyDB ctxF).1
        (setup_pipeline emptyDB ctxF).2) 4 = some "Pending" ∧
    jobStatusOf (execute_blocking regW (setup_pipeline emptyDB ctxF).1
        (setup_pipeline emptyDB ctxF).2) 3 = some "Pending" ∧
    stepStatusOf (execute_blocking regW (setup_pipeline emptyDB ctxF).1
        (setup_pipeline emptyDB ctxF).2) 5 = some "Pending" := by
  obtain ⟨h1, h2, h3, _, h5, h6, h7⟩ :=
    step_failure_semantics regW emptyDB wf_emptyDB ctxF [jobAF] jobBF [jobCF]
      [b1F] [b3F] badF helloExec "missing `name` argument" rfl rfl
      (by intro c hc s hs
          simp [jobAF] at hc
          subst hc
          simp [jobAF] at hs
          subst hs
          exact ⟨helloExec, rfl, rfl⟩)
      (by intro s hs
          simp at hs
          subst hs
          exact ⟨helloExec, rfl, rfl⟩)
      rfl rfl
  exact ⟨h1, h2, h3, h5 0 b3F rfl, h6 0 jobCF rfl, h7 0 0 jobCF _ rfl rfl⟩

end PAP
